import Mathlib

/-!
# Verification of the snake-game grid engine (`src/core/board.rs`)

This file is a shallow embedding of the Rust grid engine `Board<const N: usize>`
from `src/core/board.rs`, together with theorems settling the specification
claims about it.

Modelling conventions:

* The `i8` grid cells are modelled as `Int`; every arithmetic operation the
  Rust code performs on a cell goes through `wrap8` (two's-complement wrap of
  `i8` addition, i.e. release-mode Rust semantics) and every `as i8` cast goes
  through `toI8`.
* The `u8` field `length` is modelled as `Nat`; the increment `self.length += 1`
  is modelled as `(length + 1) % 256` (u8 wrap).
* `usize` indices are `Nat`.  The decrements `x - 1` / `y - 1` in `walk` are
  fallible: at 0 they underflow and (either directly or through the resulting
  out-of-bounds index) the Rust program panics.  `walk` therefore returns an
  `Option`; `none` models a panic.
* `rand::thread_rng` / `find_lunch_point` is a rejection-sampling loop that
  draws coordinates uniformly from `1..N-1` until it hits a cell holding `0`.
  It is modelled nondeterministically: operations take the chosen point as an
  argument, and the predicate `LunchOk` characterises exactly the points the
  loop can return.  The loop terminates (with some valid point) iff a point
  satisfying `LunchOk` exists; when no such point exists the Rust code loops
  forever (or panics for `N = 2`, where the sample range `1..N-1` is empty).
-/

namespace Snake

/-- Modelled from the spec: the component `Point` (file `src/core/point.rs` is
not part of the sources); a 2D integer coordinate used for head/tail/food
lookups, with no behavior beyond equality and construction. -/
structure Point where
  x : Nat
  y : Nat
deriving DecidableEq, Repr

/-- Modelled from the spec: the component `Direction` (file
`src/core/direction.rs` is not part of the sources); one of four compass
values, pure data consumed by the engine. -/
inductive Direction where
  | Up
  | Down
  | Left
  | Right
deriving DecidableEq, Repr

/-- Interpretation of a `usize`/`u8` value cast `as i8`
(two's-complement truncation to 8 bits). -/
def toI8 (n : Nat) : Int :=
  if n % 256 < 128 then ((n % 256 : Nat) : Int) else ((n % 256 : Nat) : Int) - 256

/-- Two's-complement wrap of an integer into the `i8` range `[-128, 127]`;
applied to the result of every `i8` addition (`*cell += 1`),
matching release-mode Rust overflow semantics. -/
def wrap8 (z : Int) : Int :=
  (z + 128) % 256 - 128

/-- The grid `[[i8; N]; N]` is modelled as a total function from coordinates
to cell values; only indices `< N` are meaningful. -/
def Table : Type := Nat → Nat → Int

/-- Writing one cell of the grid (`game_table[p.x][p.y] = v`). -/
def upd (t : Table) (p : Point) (v : Int) : Table :=
  fun a b => if a = p.x ∧ b = p.y then v else t a b

/-- The state of `Board<N>`: grid, snake length (`u8`), score (`usize`),
current direction. -/
structure Board (N : Nat) where
  game_table : Table
  length : Nat
  score : Nat
  direction : Direction

/-- The enumerate-over-offsets list driving the body-placement loop of
`create_table`: for odd `length` the Rust code iterates
`(-offset..=offset).rev().enumerate()`, i.e. pairs `(j, offset - j)` for
`j = 0, …, length-1`; for even `length` it iterates
`(-offset..offset).rev().enumerate()`, i.e. pairs `(j, offset - 1 - j)`,
where `offset = length / 2`. -/
def bodyPairs (length : Nat) : List (Nat × Int) :=
  if length % 2 ≠ 0 then
    (List.range length).map (fun j => (j, (length / 2 : Int) - j))
  else
    (List.range length).map (fun j => (j, (length / 2 : Int) - 1 - j))

/-- The all-zero grid with the boundary ring painted `-1` (row 0, row `N-1`,
column 0, column `N-1`), exactly as `create_table` paints it before placing
the body. -/
def wallsT (N : Nat) : Table := fun x y =>
  if x = 0 ∨ x = N - 1 ∨ y = 0 ∨ y = N - 1 then -1 else 0

/-- The grid of `create_table` just before `find_lunch_point` is called:
walls painted, then the initial body written on row `half = (N-1)/2` at
columns `(half + i) as usize` with values `(j + 1) as i8`. -/
def preFoodTable (N length : Nat) : Table :=
  (bodyPairs length).foldl
    (fun t ji =>
      upd t ⟨(N - 1) / 2, ((((N - 1) / 2 : Nat) : Int) + ji.2).toNat⟩ (toI8 (ji.1 + 1)))
    (wallsT N)

/-- The point returned by `find_lunch_point`: the rejection-sampling loop
draws `x` and `y` from `1..N-1` until `game_table[x][y] == 0`, so it can
return exactly the points satisfying this predicate — and it terminates iff
some point satisfies it. -/
def LunchOk (N : Nat) (t : Table) (p : Point) : Prop :=
  1 ≤ p.x ∧ p.x ≤ N - 2 ∧ 1 ≤ p.y ∧ p.y ≤ N - 2 ∧ t p.x p.y = 0

instance (N : Nat) (t : Table) (p : Point) : Decidable (LunchOk N t p) := by
  unfold LunchOk; infer_instance

/-- `Board::create_table`, with the food cell chosen by the oracle `lunch`
(see `LunchOk`): place walls and body, then set the lunch point to `-2`. -/
def create_table (N length : Nat) (lunch : Point) : Table :=
  upd (preFoodTable N length) lunch (-2)

/-- The board built by a successful `Board::new` (the `Ok` payload). -/
def mkBoard (N : Nat) (length : Nat) (lunch : Point) : Board N :=
  { game_table := create_table N length lunch
    length := length
    score := 0
    direction := Direction.Right }

/-- `Board::new`: fails when `length + 2 > N` (the error message computes
`length + 2` in `u8`, hence the `% 256`); otherwise builds the board. -/
def new (N : Nat) (length : Nat) (lunch : Point) : Except String (Board N) :=
  if length + 2 > N then
    .error ("the table size must be grater than of start snake length + 2: "
      ++ toString ((length + 2) % 256))
  else
    .ok (mkBoard N length lunch)

/-- `Board::rotation`: overwrite the direction. -/
def rotation {N : Nat} (b : Board N) (d : Direction) : Board N :=
  { b with direction := d }

/-- The candidate next-head position computed inside the scan of `walk`:
offset the previous head by one cell in the current direction.  `x - 1` /
`y - 1` are `usize` decrements: at 0 they underflow and the program panics
(`none`). -/
def stepDir (d : Direction) (p : Point) : Option Point :=
  match d with
  | Direction.Up => if p.x = 0 then none else some ⟨p.x - 1, p.y⟩
  | Direction.Down => some ⟨p.x + 1, p.y⟩
  | Direction.Left => if p.y = 0 then none else some ⟨p.x, p.y - 1⟩
  | Direction.Right => some ⟨p.x, p.y + 1⟩

/-- One cell visit of the scan loop in `walk`: positive cells equal to
`length as i8` are cleared (tail, position recorded), other positive cells
are incremented, and the cell reaching value 2 (the old head) determines the
candidate next-head position.  The state is `(table, tail_point, head_point)`;
`none` records that a panic has occurred (nothing executes after it). -/
def walkStep (length : Nat) (dir : Direction)
    (st : Option (Table × Point × Point)) (x y : Nat) :
    Option (Table × Point × Point) :=
  match st with
  | none => none
  | some (t, tl, hd) =>
    let c := t x y
    if 0 < c then
      if c = toI8 length then
        some (upd t ⟨x, y⟩ 0, ⟨x, y⟩, hd)
      else
        let c' := wrap8 (c + 1)
        let t' := upd t ⟨x, y⟩ c'
        if c' = 2 then
          match stepDir dir ⟨x, y⟩ with
          | none => none
          | some p => some (t', tl, p)
        else
          some (t', tl, hd)
    else
      st

/-- The full scan of `walk`: iterate over all rows (the row condition
`x != 1 || x != N - 1` is copied verbatim from the source) and all cells of
each row, starting from `tail_point = head_point = (0,0)`. -/
def walkScan {N : Nat} (b : Board N) : Option (Table × Point × Point) :=
  (List.range N).foldl
    (fun st x =>
      if x ≠ 1 ∨ x ≠ N - 1 then
        (List.range N).foldl (fun st' y => walkStep b.length b.direction st' x y) st
      else st)
    (some (b.game_table, ⟨0, 0⟩, ⟨0, 0⟩))

/-- `Board::walk`, with the food point of a growth tick chosen by the oracle
`lunch` (see `LunchOk`): run the scan, then resolve the target cell
`game_table[head_point.x][head_point.y]` (panic — `none` — if the index is out
of bounds): `-2` is a growth event, `0` a normal move, anything else a
collision (`false`). -/
def walk {N : Nat} (b : Board N) (lunch : Point) : Option (Bool × Board N) :=
  match walkScan b with
  | none => none
  | some (t, tl, hd) =>
    if hd.x < N ∧ hd.y < N then
      let c := t hd.x hd.y
      if c = -2 then
        let len' := (b.length + 1) % 256
        let t1 := upd t tl (toI8 len')
        let t2 := upd t1 hd 1
        let t3 := upd t2 lunch (-2)
        some (true, { game_table := t3, length := len', score := b.score + 1,
                      direction := b.direction })
      else if c = 0 then
        some (true, { b with game_table := upd t hd 1 })
      else
        some (false, { b with game_table := t })
    else
      none

/-! ## Arithmetic facts about the `i8`/`u8` model -/

theorem toI8_of_le (n : Nat) (h : n ≤ 127) : toI8 n = n := by
  unfold toI8
  rw [Nat.mod_eq_of_lt (by omega), if_pos (by omega)]

theorem toI8_le (n : Nat) : toI8 n ≤ 127 := by
  unfold toI8
  split <;> omega

theorem toI8_ge (n : Nat) : -128 ≤ toI8 n := by
  unfold toI8
  split <;> omega

theorem wrap8_of_bounds (z : Int) (h1 : -128 ≤ z) (h2 : z ≤ 127) : wrap8 z = z := by
  unfold wrap8
  rw [Int.emod_eq_of_lt (by omega) (by omega)]
  omega

/-! ## Point updates -/

theorem upd_self (t : Table) (p : Point) (v : Int) : upd t p v p.x p.y = v := by
  simp [upd]

theorem upd_of_ne (t : Table) (p : Point) (v : Int) (a b : Nat)
    (h : ¬(a = p.x ∧ b = p.y)) : upd t p v a b = t a b := by
  simp only [upd, if_neg h]

theorem upd_of_ne' (t : Table) (px py : Nat) (v : Int) (a b : Nat)
    (h : ¬(a = px ∧ b = py)) : upd t ⟨px, py⟩ v a b = t a b := by
  simp only [upd, if_neg h]

theorem upd_self' (t : Table) (px py : Nat) (v : Int) : upd t ⟨px, py⟩ v px py = v := by
  simp [upd]

/-! ## Evaluation of a fold of point updates at distinct points -/

theorem foldl_upd_miss (w : Table) (px py : Nat → Nat) (vl : Nat → Int)
    (m a b : Nat) (h : ∀ j, j < m → ¬(a = px j ∧ b = py j)) :
    ((List.range m).foldl (fun t j => upd t ⟨px j, py j⟩ (vl j)) w) a b = w a b := by
  induction m with
  | zero => simp
  | succ m ih =>
    rw [List.range_succ, List.foldl_append]
    simp only [List.foldl_cons, List.foldl_nil]
    rw [upd_of_ne' _ _ _ _ _ _ (h m (by omega))]
    exact ih (fun j hj => h j (by omega))

theorem foldl_upd_hit (w : Table) (px py : Nat → Nat) (vl : Nat → Int)
    (m j : Nat) (hj : j < m)
    (huniq : ∀ j2, j2 < m → px j = px j2 ∧ py j = py j2 → j2 = j) :
    ((List.range m).foldl (fun t j => upd t ⟨px j, py j⟩ (vl j)) w) (px j) (py j)
      = vl j := by
  induction m with
  | zero => omega
  | succ m ih =>
    rw [List.range_succ, List.foldl_append]
    simp only [List.foldl_cons, List.foldl_nil]
    by_cases hjm : j = m
    · subst hjm
      exact upd_self' _ _ _ _
    · rw [upd_of_ne' _ _ _ _ _ _ (fun hc => hjm (huniq m (by omega) ⟨hc.1, hc.2⟩).symm)]
      exact ih (by omega) (fun j2 hj2 hc => huniq j2 (by omega) hc)

/-! ## Closed form of the initial table -/

/-- The `i` offset of the body-placement loop as a function of the enumerate
index `j` is `bodyOff length - j`. -/
def bodyOff (length : Nat) : Int :=
  if length % 2 = 0 then (length / 2 : Int) - 1 else (length / 2 : Int)

theorem bodyPairs_eq (length : Nat) :
    bodyPairs length
      = (List.range length).map (fun j => ((j, bodyOff length - (j : Int)) : Nat × Int)) := by
  unfold bodyPairs bodyOff
  by_cases h : length % 2 = 0 <;> simp [h]

/-- Column of the initial head (value 1); the body occupies columns
`cLo … cHi` of row `(N-1)/2`, value `j+1` sitting at column `cHi - j`. -/
def cHi (N length : Nat) : Nat :=
  if length % 2 = 0 then (N - 1) / 2 + length / 2 - 1 else (N - 1) / 2 + length / 2

/-- Column of the initial tail (value `length`), for `length ≥ 1`. -/
def cLo (N length : Nat) : Nat := cHi N length + 1 - length

theorem cHi_lt (N length : Nat) (hNL : length + 2 ≤ N) : cHi N length ≤ N - 2 := by
  unfold cHi
  split <;> omega

theorem cHi_ge (N length : Nat) (hNL : length + 2 ≤ N) (hL : 1 ≤ length) :
    length - 1 ≤ cHi N length := by
  unfold cHi
  split <;> omega

theorem bodyCol_toNat (N length j : Nat) (hNL : length + 2 ≤ N) (hj : j < length) :
    ((((N - 1) / 2 : Nat) : Int) + (bodyOff length - (j : Int))).toNat
      = cHi N length - j := by
  unfold bodyOff cHi
  by_cases hpar : length % 2 = 0
  · rw [if_pos hpar, if_pos hpar]
    omega
  · rw [if_neg hpar, if_neg hpar]
    omega

theorem preFoodTable_eval (N length x y : Nat) (hNL : length + 2 ≤ N) :
    preFoodTable N length x y =
      if x = (N - 1) / 2 ∧ cLo N length ≤ y ∧ y ≤ cHi N length ∧ 1 ≤ length then
        toI8 (cHi N length + 1 - y)
      else wallsT N x y := by
  have hfold : preFoodTable N length =
      (List.range length).foldl
        (fun t j => upd t ⟨(N - 1) / 2, cHi N length - j⟩ (toI8 (j + 1))) (wallsT N) := by
    unfold preFoodTable
    rw [bodyPairs_eq, List.foldl_map]
    apply List.foldl_ext
    intro t j hjmem
    dsimp only
    rw [bodyCol_toNat N length j hNL (List.mem_range.mp hjmem)]
  have hLhi : length = 0 ∨ length - 1 ≤ cHi N length := by
    rcases Nat.eq_zero_or_pos length with h | h
    · exact Or.inl h
    · exact Or.inr (cHi_ge N length hNL h)
  rw [hfold]
  split
  · rename_i hcond
    obtain ⟨hx, hy1, hy2, hL⟩ := hcond
    subst hx
    have hcl : cLo N length = cHi N length + 1 - length := rfl
    have hj : cHi N length - y < length := by omega
    have hhit := foldl_upd_hit (wallsT N)
      (fun _ => (N - 1) / 2) (fun j => cHi N length - j) (fun j => toI8 (j + 1))
      length (cHi N length - y) hj
      (fun j2 hj2 hc => by dsimp only at hc; omega)
    dsimp only at hhit
    rw [show cHi N length - (cHi N length - y) = y by omega] at hhit
    rw [hhit]
    congr 1
    omega
  · rename_i hcond
    push_neg at hcond
    apply foldl_upd_miss
    intro j hj hc
    obtain ⟨hc1, hc2⟩ := hc
    have hcl : cLo N length = cHi N length + 1 - length := rfl
    have := hcond hc1
    omega

/-! ## Characterisation of the scan loop of `walk`

The scan visits every cell once (row-major); each cell's update depends only
on its own pre-scan value, so the final table applies `cellRule` pointwise,
while `tail_point` (resp. `head_point`) is determined by the unique positive
cell holding `length` (resp. `1`). -/

/-- What one scan visit does to a cell value. -/
def cellRule (len : Nat) (c : Int) : Int :=
  if 0 < c then (if c = toI8 len then 0 else wrap8 (c + 1)) else c

/-- The table after a completed scan: `cellRule` applied to every in-grid cell. -/
def scanTable (N len : Nat) (t0 : Table) : Table :=
  fun a y => if a < N ∧ y < N then cellRule len (t0 a y) else t0 a y

/-- `o` correctly describes the set of positive cells holding value `len`
(the cells the scan clears as tail): either exactly one such cell, at `p`,
or none at all. -/
def TailSpec (N : Nat) (t0 : Table) (len : Nat) : Option Point → Prop
  | some p => p.x < N ∧ p.y < N ∧ 0 < len ∧ t0 p.x p.y = (len : Int)
      ∧ ∀ a, a < N → ∀ y, y < N → t0 a y = (len : Int) → a = p.x ∧ y = p.y
  | none => ∀ a, a < N → ∀ y, y < N → ¬(0 < t0 a y ∧ t0 a y = (len : Int))

/-- `o` correctly describes the cell the scan increments to `2` (the old
head): either exactly one cell holding `1` (and `len ≠ 1`, else that cell is
treated as the tail), or no head detection at all. -/
def HeadSpec (N : Nat) (t0 : Table) (len : Nat) : Option Point → Prop
  | some p => p.x < N ∧ p.y < N ∧ len ≠ 1 ∧ t0 p.x p.y = 1
      ∧ ∀ a, a < N → ∀ y, y < N → t0 a y = 1 → a = p.x ∧ y = p.y
  | none => len = 1 ∨ ∀ a, a < N → ∀ y, y < N → t0 a y ≠ 1

theorem cellRule_nonpos (len : Nat) (c : Int) (h : ¬0 < c) : cellRule len c = c := by
  simp only [cellRule, if_neg h]

theorem cellRule_tail (len : Nat) (c : Int) (h : 0 < c) (he : c = toI8 len) :
    cellRule len c = 0 := by
  simp only [cellRule, if_pos h, if_pos he]

theorem cellRule_inc (len : Nat) (c : Int) (h : 0 < c) (he : c ≠ toI8 len) :
    cellRule len c = wrap8 (c + 1) := by
  simp only [cellRule, if_pos h, if_neg he]

theorem wrap8_eq_two_iff (c : Int) (h0 : 0 < c) (h1 : c ≤ 127) :
    wrap8 (c + 1) = 2 ↔ c = 1 := by
  constructor
  · intro h
    by_cases hc : c ≤ 126
    · rw [wrap8_of_bounds _ (by omega) (by omega)] at h
      omega
    · have : c = 127 := by omega
      subst this
      norm_num [wrap8] at h
  · intro h
    subst h
    rfl

theorem upd_self_value (t : Table) (a y : Nat) : upd t ⟨a, y⟩ (t a y) = t := by
  funext u v
  simp only [upd]
  split
  · rename_i h
    rw [h.1, h.2]
  · rfl

/-- The table after the scan has processed all rows `< x` and the first `m`
cells of row `x`. -/
def expTable (N len : Nat) (t0 : Table) (x m : Nat) : Table :=
  fun a y => if (a < x ∧ y < N) ∨ (a = x ∧ y < m) then cellRule len (t0 a y) else t0 a y

/-- The `tail_point` after the scan has processed the same prefix. -/
def expTailPt (oT : Option Point) (N x m : Nat) : Point :=
  match oT with
  | some p => if (p.x < x ∧ p.y < N) ∨ (p.x = x ∧ p.y < m) then p else ⟨0, 0⟩
  | none => ⟨0, 0⟩

/-- The whole scan state after processing the same prefix (`none` = the scan
panicked computing the next-head offset). -/
def expState (N len : Nat) (dir : Direction) (t0 : Table) (oT oH : Option Point)
    (x m : Nat) : Option (Table × Point × Point) :=
  match oH with
  | some pH =>
    if (pH.x < x ∧ pH.y < N) ∨ (pH.x = x ∧ pH.y < m) then
      match stepDir dir pH with
      | none => none
      | some q => some (expTable N len t0 x m, expTailPt oT N x m, q)
    else some (expTable N len t0 x m, expTailPt oT N x m, ⟨0, 0⟩)
  | none => some (expTable N len t0 x m, expTailPt oT N x m, ⟨0, 0⟩)

theorem expTable_succ (N len : Nat) (t0 : Table) (x m : Nat) (hm : m < N) :
    expTable N len t0 x (m + 1)
      = upd (expTable N len t0 x m) ⟨x, m⟩ (cellRule len (t0 x m)) := by
  funext a y
  simp only [expTable, upd]
  by_cases hab : a = x ∧ y = m
  · obtain ⟨h1, h2⟩ := hab
    subst h1; subst h2
    rw [if_pos (Or.inr ⟨rfl, by omega⟩), if_pos ⟨rfl, rfl⟩]
  · rw [if_neg hab]
    have hiff : ((a < x ∧ y < N) ∨ (a = x ∧ y < m + 1))
        ↔ ((a < x ∧ y < N) ∨ (a = x ∧ y < m)) := by
      constructor <;> intro h <;> omega
    rw [if_congr hiff rfl rfl]

theorem walkStep_some (len : Nat) (dir : Direction) (t : Table) (tl hd : Point)
    (x m : Nat) :
    walkStep len dir (some (t, tl, hd)) x m =
      if 0 < t x m then
        if t x m = toI8 len then some (upd t ⟨x, m⟩ 0, ⟨x, m⟩, hd)
        else if wrap8 (t x m + 1) = 2 then
          match stepDir dir ⟨x, m⟩ with
          | none => none
          | some p => some (upd t ⟨x, m⟩ (wrap8 (t x m + 1)), tl, p)
        else some (upd t ⟨x, m⟩ (wrap8 (t x m + 1)), tl, hd)
      else some (t, tl, hd) := rfl

theorem walkStep_exp (N len : Nat) (dir : Direction) (t0 : Table) (oT oH : Option Point)
    (x m : Nat) (hx : x < N) (hm : m < N) (hlen : len ≤ 127)
    (hbound : ∀ a, a < N → ∀ y, y < N → 0 < t0 a y → t0 a y ≤ (len : Int))
    (hT : TailSpec N t0 len oT) (hH : HeadSpec N t0 len oH) :
    walkStep len dir (expState N len dir t0 oT oH x m) x m
      = expState N len dir t0 oT oH x (m + 1) := by
  have htoI8 : toI8 len = (len : Int) := toI8_of_le len hlen
  have hunproc : expTable N len t0 x m x m = t0 x m := by
    simp only [expTable]
    rw [if_neg (by omega)]
  have hTbl : expTable N len t0 x (m + 1)
      = upd (expTable N len t0 x m) ⟨x, m⟩ (cellRule len (t0 x m)) :=
    expTable_succ N len t0 x m hm
  by_cases hcpos : 0 < t0 x m
  · by_cases hctail : t0 x m = toI8 len
    · -- the cell is the tail: cleared, tail_point recorded
      have hlpos : 0 < len := by
        rcases Nat.eq_zero_or_pos len with h0 | h0
        · subst h0; simp [toI8] at hctail; omega
        · exact h0
      obtain ⟨pT, hoT, hpTx, hpTy⟩ :
          ∃ pT, oT = some pT ∧ pT.x = x ∧ pT.y = m := by
        cases oT with
        | none =>
          exact absurd ⟨hcpos, htoI8 ▸ hctail⟩ (hT x hx m hm)
        | some pT =>
          obtain ⟨_, _, _, _, huniq⟩ := hT
          obtain ⟨h1, h2⟩ := huniq x hx m hm (htoI8 ▸ hctail)
          exact ⟨pT, rfl, h1.symm, h2.symm⟩
      have hpT : pT = (⟨x, m⟩ : Point) := by
        cases pT
        simp_all
      have hTail : expTailPt oT N x (m + 1) = pT := by
        rw [hoT]
        simp only [expTailPt]
        rw [if_pos (show (pT.x < x ∧ pT.y < N) ∨ (pT.x = x ∧ pT.y < m + 1) by omega)]
      have hcell : cellRule len (t0 x m) = 0 := cellRule_tail len _ hcpos hctail
      cases oH with
      | none =>
        simp only [expState]
        rw [walkStep_some, hunproc, if_pos hcpos, if_pos hctail, hTbl, hcell, hTail, hpT]
      | some pH =>
        have hne : ¬(pH.x = x ∧ pH.y = m) := by
          obtain ⟨_, _, hl1, hval, _⟩ := hH
          intro hc
          rw [hc.1, hc.2] at hval
          rw [hval] at hctail
          rw [htoI8] at hctail
          have : len = 1 := by omega
          exact hl1 this
        have hcond : ((pH.x < x ∧ pH.y < N) ∨ (pH.x = x ∧ pH.y < m + 1))
            ↔ ((pH.x < x ∧ pH.y < N) ∨ (pH.x = x ∧ pH.y < m)) := by
          constructor <;> intro h <;> omega
        by_cases hproc : (pH.x < x ∧ pH.y < N) ∨ (pH.x = x ∧ pH.y < m)
        · simp only [expState]
          rw [if_pos hproc, if_pos (hcond.mpr hproc)]
          cases hsd : stepDir dir pH with
          | none => rfl
          | some q =>
            rw [walkStep_some, hunproc, if_pos hcpos, if_pos hctail, hTbl, hcell,
              hTail, hpT]
        · simp only [expState]
          rw [if_neg hproc, if_neg (fun h => hproc (hcond.mp h))]
          rw [walkStep_some, hunproc, if_pos hcpos, if_pos hctail, hTbl, hcell,
            hTail, hpT]
    · -- the cell is incremented
      have hble : t0 x m ≤ (len : Int) := hbound x hx m hm hcpos
      have hcell : cellRule len (t0 x m) = wrap8 (t0 x m + 1) :=
        cellRule_inc len _ hcpos hctail
      have hw2 : wrap8 (t0 x m + 1) = 2 ↔ t0 x m = 1 :=
        wrap8_eq_two_iff _ hcpos (by omega)
      have hTail : expTailPt oT N x (m + 1) = expTailPt oT N x m := by
        cases oT with
        | none => rfl
        | some pT =>
          obtain ⟨_, _, _, hval, _⟩ := hT
          have hne : ¬(pT.x = x ∧ pT.y = m) := by
            intro hc
            rw [hc.1, hc.2] at hval
            rw [hval] at hctail
            exact hctail (htoI8 ▸ rfl)
          simp only [expTailPt]
          have hcond : ((pT.x < x ∧ pT.y < N) ∨ (pT.x = x ∧ pT.y < m + 1))
              ↔ ((pT.x < x ∧ pT.y < N) ∨ (pT.x = x ∧ pT.y < m)) := by
            constructor <;> intro h <;> omega
          rw [if_congr hcond rfl rfl]
      by_cases hchead : t0 x m = 1
      · -- head detected at this cell
        obtain ⟨pH, hoH, hpHx, hpHy⟩ :
            ∃ pH, oH = some pH ∧ pH.x = x ∧ pH.y = m := by
          cases oH with
          | none =>
            cases hH with
            | inl h1 =>
              exfalso
              apply hctail
              rw [hchead, h1]
              decide
            | inr hno => exact absurd hchead (hno x hx m hm)
          | some pH =>
            obtain ⟨_, _, _, _, huniq⟩ := hH
            obtain ⟨h1, h2⟩ := huniq x hx m hm hchead
            exact ⟨pH, rfl, h1.symm, h2.symm⟩
        have hpH : pH = (⟨x, m⟩ : Point) := by
          cases pH
          simp_all
        subst hoH
        have hproc : ¬((pH.x < x ∧ pH.y < N) ∨ (pH.x = x ∧ pH.y < m)) := by
          omega
        have hproc1 : (pH.x < x ∧ pH.y < N) ∨ (pH.x = x ∧ pH.y < m + 1) := by
          omega
        simp only [expState]
        rw [if_neg hproc, if_pos hproc1, hpH]
        rw [walkStep_some, hunproc, if_pos hcpos, if_neg hctail,
          if_pos (hw2.mpr hchead)]
        cases hsd : stepDir dir ⟨x, m⟩ with
        | none => rfl
        | some q =>
          rw [hTbl, hcell, hTail]
      · -- ordinary body cell: incremented, no head detection
        have hnothead : ¬wrap8 (t0 x m + 1) = 2 := fun h => hchead (hw2.mp h)
        cases oH with
        | none =>
          simp only [expState]
          rw [walkStep_some, hunproc, if_pos hcpos, if_neg hctail, if_neg hnothead,
            hTbl, hcell, hTail]
        | some pH =>
          have hne : ¬(pH.x = x ∧ pH.y = m) := by
            obtain ⟨_, _, _, hval, _⟩ := hH
            intro hc
            rw [hc.1, hc.2] at hval
            exact hchead hval
          have hcond : ((pH.x < x ∧ pH.y < N) ∨ (pH.x = x ∧ pH.y < m + 1))
              ↔ ((pH.x < x ∧ pH.y < N) ∨ (pH.x = x ∧ pH.y < m)) := by
            constructor <;> intro h <;> omega
          by_cases hproc : (pH.x < x ∧ pH.y < N) ∨ (pH.x = x ∧ pH.y < m)
          · simp only [expState]
            rw [if_pos hproc, if_pos (hcond.mpr hproc)]
            cases hsd : stepDir dir pH with
            | none => rfl
            | some q =>
              rw [walkStep_some, hunproc, if_pos hcpos, if_neg hctail, if_neg hnothead,
                hTbl, hcell, hTail]
          · simp only [expState]
            rw [if_neg hproc, if_neg (fun h => hproc (hcond.mp h))]
            rw [walkStep_some, hunproc, if_pos hcpos, if_neg hctail, if_neg hnothead,
              hTbl, hcell, hTail]
  · -- non-positive cell: the scan leaves it (and the state) unchanged
    have hcell : cellRule len (t0 x m) = t0 x m := cellRule_nonpos len _ hcpos
    have hTblEq : expTable N len t0 x (m + 1) = expTable N len t0 x m := by
      rw [hTbl, hcell, ← hunproc]
      exact upd_self_value _ x m
    have hTail : expTailPt oT N x (m + 1) = expTailPt oT N x m := by
      cases oT with
      | none => rfl
      | some pT =>
        obtain ⟨_, _, hlpos, hval, _⟩ := hT
        have hne : ¬(pT.x = x ∧ pT.y = m) := by
          intro hc
          rw [hc.1, hc.2] at hval
          rw [hval] at hcpos
          exact hcpos (by exact_mod_cast hlpos)
        simp only [expTailPt]
        have hcond : ((pT.x < x ∧ pT.y < N) ∨ (pT.x = x ∧ pT.y < m + 1))
            ↔ ((pT.x < x ∧ pT.y < N) ∨ (pT.x = x ∧ pT.y < m)) := by
          constructor <;> intro h <;> omega
        rw [if_congr hcond rfl rfl]
    cases oH with
    | none =>
      simp only [expState]
      rw [walkStep_some, hunproc, if_neg hcpos, hTblEq, hTail]
    | some pH =>
      have hne : ¬(pH.x = x ∧ pH.y = m) := by
        obtain ⟨_, _, _, hval, _⟩ := hH
        intro hc
        rw [hc.1, hc.2] at hval
        rw [hval] at hcpos
        exact hcpos (by norm_num)
      have hcond : ((pH.x < x ∧ pH.y < N) ∨ (pH.x = x ∧ pH.y < m + 1))
          ↔ ((pH.x < x ∧ pH.y < N) ∨ (pH.x = x ∧ pH.y < m)) := by
        constructor <;> intro h <;> omega
      by_cases hproc : (pH.x < x ∧ pH.y < N) ∨ (pH.x = x ∧ pH.y < m)
      · simp only [expState]
        rw [if_pos hproc, if_pos (hcond.mpr hproc)]
        cases hsd : stepDir dir pH with
        | none => rfl
        | some q =>
          rw [walkStep_some, hunproc, if_neg hcpos, hTblEq, hTail]
      · simp only [expState]
        rw [if_neg hproc, if_neg (fun h => hproc (hcond.mp h))]
        rw [walkStep_some, hunproc, if_neg hcpos, hTblEq, hTail]

theorem rowFold_exp (N len : Nat) (dir : Direction) (t0 : Table) (oT oH : Option Point)
    (x : Nat) (hx : x < N) (hlen : len ≤ 127)
    (hbound : ∀ a, a < N → ∀ y, y < N → 0 < t0 a y → t0 a y ≤ (len : Int))
    (hT : TailSpec N t0 len oT) (hH : HeadSpec N t0 len oH)
    (m : Nat) (hm : m ≤ N) :
    (List.range m).foldl (fun st y => walkStep len dir st x y)
        (expState N len dir t0 oT oH x 0)
      = expState N len dir t0 oT oH x m := by
  induction m with
  | zero => simp
  | succ m ih =>
    rw [List.range_succ, List.foldl_append]
    simp only [List.foldl_cons, List.foldl_nil]
    rw [ih (by omega)]
    exact walkStep_exp N len dir t0 oT oH x m hx (by omega) hlen hbound hT hH

theorem expState_colshift (N len : Nat) (dir : Direction) (t0 : Table)
    (oT oH : Option Point) (x : Nat) :
    expState N len dir t0 oT oH x N = expState N len dir t0 oT oH (x + 1) 0 := by
  have htbl : expTable N len t0 x N = expTable N len t0 (x + 1) 0 := by
    funext a y
    simp only [expTable]
    have hiff : ((a < x ∧ y < N) ∨ (a = x ∧ y < N))
        ↔ ((a < x + 1 ∧ y < N) ∨ (a = x + 1 ∧ y < 0)) := by
      constructor <;> intro h <;> omega
    rw [if_congr hiff rfl rfl]
  have htl : expTailPt oT N x N = expTailPt oT N (x + 1) 0 := by
    cases oT with
    | none => rfl
    | some p =>
      simp only [expTailPt]
      have hiff : ((p.x < x ∧ p.y < N) ∨ (p.x = x ∧ p.y < N))
          ↔ ((p.x < x + 1 ∧ p.y < N) ∨ (p.x = x + 1 ∧ p.y < 0)) := by
        constructor <;> intro h <;> omega
      rw [if_congr hiff rfl rfl]
  cases oH with
  | none => simp only [expState]; rw [htbl, htl]
  | some pH =>
    simp only [expState]
    have hiff : ((pH.x < x ∧ pH.y < N) ∨ (pH.x = x ∧ pH.y < N))
        ↔ ((pH.x < x + 1 ∧ pH.y < N) ∨ (pH.x = x + 1 ∧ pH.y < 0)) := by
      constructor <;> intro h <;> omega
    by_cases hp : (pH.x < x ∧ pH.y < N) ∨ (pH.x = x ∧ pH.y < N)
    · rw [if_pos hp, if_pos (hiff.mp hp)]
      cases stepDir dir pH with
      | none => rfl
      | some q => rw [htbl, htl]
    · rw [if_neg hp, if_neg (fun h => hp (hiff.mpr h))]
      rw [htbl, htl]

theorem expState_zero (N len : Nat) (dir : Direction) (t0 : Table)
    (oT oH : Option Point) :
    expState N len dir t0 oT oH 0 0 = some (t0, ⟨0, 0⟩, ⟨0, 0⟩) := by
  have htbl : expTable N len t0 0 0 = t0 := by
    funext a y
    simp only [expTable]
    rw [if_neg (by omega)]
  have htl : expTailPt oT N 0 0 = (⟨0, 0⟩ : Point) := by
    cases oT with
    | none => rfl
    | some p =>
      simp only [expTailPt]
      rw [if_neg (by omega)]
  cases oH with
  | none => simp only [expState]; rw [htbl, htl]
  | some pH =>
    simp only [expState]
    rw [if_neg (by omega), htbl, htl]

theorem walkScan_char {N : Nat} (b : Board N) (oT oH : Option Point)
    (hN : 3 ≤ N) (hlen : b.length ≤ 127)
    (hbound : ∀ a, a < N → ∀ y, y < N →
      0 < b.game_table a y → b.game_table a y ≤ (b.length : Int))
    (hT : TailSpec N b.game_table b.length oT)
    (hH : HeadSpec N b.game_table b.length oH) :
    walkScan b = expState N b.length b.direction b.game_table oT oH N 0 := by
  unfold walkScan
  suffices h : ∀ x, x ≤ N →
      (List.range x).foldl
        (fun st xx =>
          if xx ≠ 1 ∨ xx ≠ N - 1 then
            (List.range N).foldl (fun st' y => walkStep b.length b.direction st' xx y) st
          else st)
        (some (b.game_table, ⟨0, 0⟩, ⟨0, 0⟩))
      = expState N b.length b.direction b.game_table oT oH x 0 by
    exact h N le_rfl
  intro x hx
  induction x with
  | zero =>
    rw [expState_zero]
    simp
  | succ x ih =>
    rw [List.range_succ, List.foldl_append]
    simp only [List.foldl_cons, List.foldl_nil]
    rw [ih (by omega)]
    rw [if_pos (show x ≠ 1 ∨ x ≠ N - 1 by omega)]
    rw [rowFold_exp N b.length b.direction b.game_table oT oH x (by omega) hlen
      hbound hT hH N le_rfl]
    exact expState_colshift N b.length b.direction b.game_table oT oH x

/-- Final cleanup of `expState` at the end of the scan. -/
theorem expState_final (N len : Nat) (dir : Direction) (t0 : Table)
    (oT oH : Option Point)
    (hT : TailSpec N t0 len oT) (hH : HeadSpec N t0 len oH) :
    expState N len dir t0 oT oH N 0 =
      match oH with
      | some pH =>
        (match stepDir dir pH with
         | none => none
         | some q => some (scanTable N len t0, oT.getD ⟨0, 0⟩, q))
      | none => some (scanTable N len t0, oT.getD ⟨0, 0⟩, ⟨0, 0⟩) := by
  have htbl : expTable N len t0 N 0 = scanTable N len t0 := by
    funext a y
    simp only [expTable, scanTable]
    have hiff : ((a < N ∧ y < N) ∨ (a = N ∧ y < 0)) ↔ (a < N ∧ y < N) := by
      constructor <;> intro h <;> omega
    rw [if_congr hiff rfl rfl]
  have htl : expTailPt oT N N 0 = oT.getD ⟨0, 0⟩ := by
    cases oT with
    | none => rfl
    | some p =>
      obtain ⟨h1, h2, _⟩ := hT
      simp only [expTailPt, Option.getD]
      rw [if_pos (by omega)]
  cases oH with
  | none => simp only [expState]; rw [htbl, htl]
  | some pH =>
    simp only [expState]
    obtain ⟨h1, h2, _⟩ := hH
    rw [if_pos (by omega)]
    cases stepDir dir pH with
    | none => rfl
    | some q => rw [htbl, htl]

/-! ## Behaviour of `walk` by cases on the target cell -/

theorem walkScan_some_head {N : Nat} (b : Board N) (oT : Option Point) (pH q : Point)
    (hN : 3 ≤ N) (hlen : b.length ≤ 127)
    (hbound : ∀ a, a < N → ∀ y, y < N →
      0 < b.game_table a y → b.game_table a y ≤ (b.length : Int))
    (hT : TailSpec N b.game_table b.length oT)
    (hH : HeadSpec N b.game_table b.length (some pH))
    (hsd : stepDir b.direction pH = some q) :
    walkScan b = some (scanTable N b.length b.game_table, oT.getD ⟨0, 0⟩, q) := by
  rw [walkScan_char b oT (some pH) hN hlen hbound hT hH,
    expState_final N b.length b.direction b.game_table oT (some pH) hT hH]
  simp only [hsd]

theorem walkScan_some_head_panic {N : Nat} (b : Board N) (oT : Option Point) (pH : Point)
    (hN : 3 ≤ N) (hlen : b.length ≤ 127)
    (hbound : ∀ a, a < N → ∀ y, y < N →
      0 < b.game_table a y → b.game_table a y ≤ (b.length : Int))
    (hT : TailSpec N b.game_table b.length oT)
    (hH : HeadSpec N b.game_table b.length (some pH))
    (hsd : stepDir b.direction pH = none) :
    walkScan b = none := by
  rw [walkScan_char b oT (some pH) hN hlen hbound hT hH,
    expState_final N b.length b.direction b.game_table oT (some pH) hT hH]
  simp only [hsd]

theorem walkScan_no_head {N : Nat} (b : Board N) (oT : Option Point)
    (hN : 3 ≤ N) (hlen : b.length ≤ 127)
    (hbound : ∀ a, a < N → ∀ y, y < N →
      0 < b.game_table a y → b.game_table a y ≤ (b.length : Int))
    (hT : TailSpec N b.game_table b.length oT)
    (hH : HeadSpec N b.game_table b.length none) :
    walkScan b = some (scanTable N b.length b.game_table, oT.getD ⟨0, 0⟩, ⟨0, 0⟩) := by
  rw [walkScan_char b oT none hN hlen hbound hT hH,
    expState_final N b.length b.direction b.game_table oT none hT hH]

/-- Evaluating `walk` once the scan output is known. -/
theorem walk_of_scan {N : Nat} (b : Board N) (lunch : Point) (t : Table) (tl hd : Point)
    (hscan : walkScan b = some (t, tl, hd)) (hx : hd.x < N) (hy : hd.y < N) :
    walk b lunch =
      if t hd.x hd.y = -2 then
        some (true,
          { game_table := upd (upd (upd t tl (toI8 ((b.length + 1) % 256))) hd 1) lunch (-2)
            length := (b.length + 1) % 256
            score := b.score + 1
            direction := b.direction })
      else if t hd.x hd.y = 0 then
        some (true, { b with game_table := upd t hd 1 })
      else
        some (false, { b with game_table := t }) := by
  unfold walk
  rw [hscan]
  simp only [if_pos (And.intro hx hy)]

theorem walk_of_scan_panic {N : Nat} (b : Board N) (lunch : Point)
    (hscan : walkScan b = none) : walk b lunch = none := by
  unfold walk
  rw [hscan]

theorem walk_of_scan_oob {N : Nat} (b : Board N) (lunch : Point) (t : Table)
    (tl hd : Point) (hscan : walkScan b = some (t, tl, hd))
    (h : ¬(hd.x < N ∧ hd.y < N)) : walk b lunch = none := by
  unfold walk
  rw [hscan]
  simp only [if_neg h]

/-! ## The snake representation invariant -/

/-- Two grid cells are grid-adjacent (orthogonal neighbours). -/
def Adjacent (p q : Point) : Prop :=
  (p.x = q.x ∧ (p.y = q.y + 1 ∨ q.y = p.y + 1))
    ∨ (p.y = q.y ∧ (p.x = q.x + 1 ∨ q.x = p.x + 1))

instance (p q : Point) : Decidable (Adjacent p q) := by
  unfold Adjacent; infer_instance

/-- `s` lists the snake's cells head-first: cell `i` (0-based) holds value
`i+1`, every positive cell of the grid is a snake cell, consecutive snake
cells are grid-adjacent, and all snake cells are inside the `N×N` grid. -/
def SnakeRep {N : Nat} (b : Board N) (s : List Point) : Prop :=
  s.length = b.length
    ∧ (∀ i, i < s.length →
        b.game_table (s.getD i ⟨0, 0⟩).x (s.getD i ⟨0, 0⟩).y = (i : Int) + 1)
    ∧ (∀ a, a < N → ∀ y, y < N → 0 < b.game_table a y → (⟨a, y⟩ : Point) ∈ s)
    ∧ (∀ i, i < s.length - 1 → Adjacent (s.getD i ⟨0, 0⟩) (s.getD (i + 1) ⟨0, 0⟩))
    ∧ (∀ p, p ∈ s → p.x < N ∧ p.y < N)

instance {N : Nat} (b : Board N) (s : List Point) : Decidable (SnakeRep b s) := by
  unfold SnakeRep; infer_instance

/-- Exactly one food cell (`-2`), and it is in the interior. -/
def FoodOk {N : Nat} (b : Board N) : Prop :=
  ∃ p : Point, p.x < N ∧ p.y < N ∧ b.game_table p.x p.y = -2
    ∧ 1 ≤ p.x ∧ p.x ≤ N - 2 ∧ 1 ≤ p.y ∧ p.y ≤ N - 2
    ∧ ∀ a, a < N → ∀ y, y < N → b.game_table a y = -2 → a = p.x ∧ y = p.y

/-- Every boundary-ring cell holds the wall value `-1`. -/
def RingOk {N : Nat} (b : Board N) : Prop :=
  ∀ a, a < N → ∀ y, y < N → (a = 0 ∨ a = N - 1 ∨ y = 0 ∨ y = N - 1) →
    b.game_table a y = -1

/-- All listed cells are interior cells. -/
def InteriorS (N : Nat) (s : List Point) : Prop :=
  ∀ p, p ∈ s → 1 ≤ p.x ∧ p.x ≤ N - 2 ∧ 1 ≤ p.y ∧ p.y ≤ N - 2

/-- State of the board after one or more failed (`false`) ticks: the
remaining positive cells form a suffix of the old body holding the
consecutive values `k, k+1, …, length` (the caller is expected to stop, but
nothing prevents further `walk` calls; each one shifts these values up and
clears the cell holding `length`). -/
def DeadRep {N : Nat} (b : Board N) (k : Nat) (s : List Point) : Prop :=
  2 ≤ k
    ∧ (∀ i, i < s.length →
        b.game_table (s.getD i ⟨0, 0⟩).x (s.getD i ⟨0, 0⟩).y = (k : Int) + i)
    ∧ (∀ a, a < N → ∀ y, y < N → 0 < b.game_table a y → (⟨a, y⟩ : Point) ∈ s)
    ∧ (s ≠ [] → k + s.length = b.length + 1)
    ∧ (∀ p, p ∈ s → p.x < N ∧ p.y < N)

theorem snake_getD_mem {s : List Point} {i : Nat} (h : i < s.length) :
    s.getD i ⟨0, 0⟩ ∈ s := by
  rw [List.getD_eq_getElem s _ h]
  exact List.getElem_mem h

theorem snake_idx_inj {N : Nat} {b : Board N} {s : List Point} (h : SnakeRep b s)
    {i j : Nat} (hi : i < s.length) (hj : j < s.length)
    (he : s.getD i ⟨0, 0⟩ = s.getD j ⟨0, 0⟩) : i = j := by
  obtain ⟨-, hval, -, -, -⟩ := h
  have h1 := hval i hi
  have h2 := hval j hj
  rw [he] at h1
  rw [h1] at h2
  omega

theorem snake_mem_getD {s : List Point} {p : Point} (h : p ∈ s) :
    ∃ i, i < s.length ∧ s.getD i ⟨0, 0⟩ = p := by
  obtain ⟨i, hi, he⟩ := List.mem_iff_getElem.mp h
  exact ⟨i, hi, by rw [List.getD_eq_getElem s _ hi]; exact he⟩

theorem snake_bound {N : Nat} {b : Board N} {s : List Point} (h : SnakeRep b s) :
    ∀ a, a < N → ∀ y, y < N →
      0 < b.game_table a y → b.game_table a y ≤ (b.length : Int) := by
  intro a ha y hy hpos
  obtain ⟨hlen, hval, hmem, -, -⟩ := h
  obtain ⟨i, hi, he⟩ := snake_mem_getD (hmem a ha y hy hpos)
  have := hval i hi
  rw [he] at this
  rw [this]
  omega

theorem snake_value_at {N : Nat} {b : Board N} {s : List Point} (h : SnakeRep b s)
    {a y k : Nat} (ha : a < N) (hy : y < N) (hk : k < s.length)
    (hv : b.game_table a y = (k : Int) + 1) :
    a = (s.getD k ⟨0, 0⟩).x ∧ y = (s.getD k ⟨0, 0⟩).y := by
  obtain ⟨hlen, hval, hmem, -, -⟩ := h
  have hpos : 0 < b.game_table a y := by rw [hv]; omega
  obtain ⟨i, hi, he⟩ := snake_mem_getD (hmem a ha y hy hpos)
  have hvi := hval i hi
  rw [he, hv] at hvi
  have hik : i = k := by omega
  subst hik
  rw [he]
  exact ⟨rfl, rfl⟩

theorem snake_tailSpec {N : Nat} {b : Board N} {s : List Point} (h : SnakeRep b s)
    (hlen : b.length ≤ 127) (h1 : 1 ≤ b.length) :
    TailSpec N b.game_table b.length (some (s.getD (b.length - 1) ⟨0, 0⟩)) := by
  obtain ⟨hl, hval, hmem, hadj, hgrid⟩ := h
  have hi : b.length - 1 < s.length := by omega
  have hmm := snake_getD_mem hi
  have hv := hval (b.length - 1) hi
  have hcast : ((b.length - 1 : Nat) : Int) + 1 = (b.length : Int) := by omega
  refine ⟨(hgrid _ hmm).1, (hgrid _ hmm).2, h1, by rw [hv, hcast], ?_⟩
  intro a ha y hy hvv
  exact snake_value_at ⟨hl, hval, hmem, hadj, hgrid⟩ ha hy hi (by rw [hvv]; omega)

theorem snake_tailSpec0 {N : Nat} {b : Board N} {s : List Point} (h : SnakeRep b s)
    (h0 : b.length = 0) : TailSpec N b.game_table b.length none := by
  intro a ha y hy hc
  obtain ⟨hl, hval, hmem, -, -⟩ := h
  have hin := hmem a ha y hy hc.1
  have hnil : s = [] := List.eq_nil_of_length_eq_zero (by omega)
  rw [hnil] at hin
  exact absurd hin (List.not_mem_nil _)

theorem snake_headSpec {N : Nat} {b : Board N} {s : List Point} (h : SnakeRep b s)
    (h2 : 2 ≤ b.length) :
    HeadSpec N b.game_table b.length (some (s.getD 0 ⟨0, 0⟩)) := by
  obtain ⟨hl, hval, hmem, hadj, hgrid⟩ := h
  have hi : 0 < s.length := by omega
  have hmm := snake_getD_mem hi
  have hv := hval 0 hi
  refine ⟨(hgrid _ hmm).1, (hgrid _ hmm).2, by omega, by rw [hv]; norm_num, ?_⟩
  intro a ha y hy hvv
  exact snake_value_at ⟨hl, hval, hmem, hadj, hgrid⟩ ha hy hi (by rw [hvv]; norm_num)

theorem snake_headSpec1 {N : Nat} {b : Board N} {s : List Point} (h : SnakeRep b s)
    (h1 : b.length ≤ 1) : HeadSpec N b.game_table b.length none := by
  rcases Nat.lt_or_ge b.length 1 with h0 | h0
  · right
    intro a ha y hy hvv
    obtain ⟨hl, hval, hmem, -, -⟩ := h
    have hin := hmem a ha y hy (by rw [hvv]; norm_num)
    have hnil : s = [] := List.eq_nil_of_length_eq_zero (by omega)
    rw [hnil] at hin
    exact absurd hin (List.not_mem_nil _)
  · left
    omega

theorem stepDir_adjacent (d : Direction) (p q : Point)
    (h : stepDir d p = some q) : Adjacent q p := by
  unfold Adjacent
  cases d <;> simp only [stepDir] at h
  · by_cases hx : p.x = 0
    · rw [if_pos hx] at h
      exact absurd h (by simp)
    · rw [if_neg hx] at h
      injection h with h2
      subst h2
      dsimp only
      omega
  · injection h with h2
    subst h2
    dsimp only
    omega
  · by_cases hy : p.y = 0
    · rw [if_pos hy] at h
      exact absurd h (by simp)
    · rw [if_neg hy] at h
      injection h with h2
      subst h2
      dsimp only
      omega
  · injection h with h2
    subst h2
    dsimp only
    omega

/-! ## Values of the scanned table -/

theorem scanTable_nonpos (N len : Nat) (t0 : Table) (a y : Nat)
    (h : t0 a y ≤ 0) : scanTable N len t0 a y = t0 a y := by
  unfold scanTable
  split
  · exact cellRule_nonpos len _ (by omega)
  · rfl

theorem cellRule_classify (len : Nat) (c : Int) (hlen : len ≤ 127)
    (hc : 0 < c → c ≤ (len : Int)) :
    (c ≤ 0 ∧ cellRule len c = c)
      ∨ (0 < c ∧ c = (len : Int) ∧ cellRule len c = 0)
      ∨ (0 < c ∧ c < (len : Int) ∧ cellRule len c = c + 1) := by
  have htoI8 : toI8 len = (len : Int) := toI8_of_le len hlen
  by_cases hpos : 0 < c
  · by_cases htail : c = toI8 len
    · exact Or.inr (Or.inl ⟨hpos, htoI8 ▸ htail, cellRule_tail len c hpos htail⟩)
    · have hlt : c < (len : Int) := by
        have := hc hpos
        rw [htoI8] at htail
        omega
      refine Or.inr (Or.inr ⟨hpos, hlt, ?_⟩)
      rw [cellRule_inc len c hpos htail, wrap8_of_bounds _ (by omega) (by omega)]
  · exact Or.inl ⟨by omega, cellRule_nonpos len c hpos⟩

theorem scanTable_eq_neg_iff (N len : Nat) (t0 : Table) (hlen : len ≤ 127)
    (hb : ∀ a, a < N → ∀ y, y < N → 0 < t0 a y → t0 a y ≤ (len : Int))
    (a y : Nat) (v : Int) (hv : v < 0) :
    scanTable N len t0 a y = v ↔ t0 a y = v := by
  unfold scanTable
  by_cases hin : a < N ∧ y < N
  · rw [if_pos hin]
    rcases cellRule_classify len (t0 a y) hlen (hb a hin.1 y hin.2) with
      ⟨h1, h2⟩ | ⟨h1, h2, h3⟩ | ⟨h1, h2, h3⟩
    · rw [h2]
    · rw [h3]
      constructor <;> intro h <;> omega
    · rw [h3]
      constructor <;> intro h <;> omega
  · rw [if_neg hin]

theorem snake_scan_body {N : Nat} {b : Board N} {s : List Point} (hrep : SnakeRep b s)
    (hlen : b.length ≤ 127) (i : Nat) (hi : i < s.length - 1) :
    scanTable N b.length b.game_table
        (s.getD i ⟨0, 0⟩).x (s.getD i ⟨0, 0⟩).y = (i : Int) + 2 := by
  obtain ⟨hl, hval, hmem, hadj, hgrid⟩ := hrep
  have hmm := snake_getD_mem (show i < s.length by omega)
  have hg := hgrid _ hmm
  have hv := hval i (by omega)
  unfold scanTable
  rw [if_pos hg, hv]
  rw [cellRule_inc _ _ (by omega) (by rw [toI8_of_le _ hlen]; omega)]
  rw [wrap8_of_bounds _ (by omega) (by omega)]
  omega

theorem snake_scan_tail {N : Nat} {b : Board N} {s : List Point} (hrep : SnakeRep b s)
    (hlen : b.length ≤ 127) (h1 : 1 ≤ b.length) :
    scanTable N b.length b.game_table
        (s.getD (b.length - 1) ⟨0, 0⟩).x (s.getD (b.length - 1) ⟨0, 0⟩).y = 0 := by
  obtain ⟨hl, hval, hmem, hadj, hgrid⟩ := hrep
  have hmm := snake_getD_mem (show b.length - 1 < s.length by omega)
  have hg := hgrid _ hmm
  have hv := hval (b.length - 1) (by omega)
  unfold scanTable
  rw [if_pos hg, hv]
  exact cellRule_tail _ _ (by omega) (by rw [toI8_of_le _ hlen]; omega)

theorem snake_scan_target {N : Nat} {b : Board N} {s : List Point} (hrep : SnakeRep b s)
    (hlen : b.length ≤ 127) {a y : Nat} (ha : a < N) (hy : y < N)
    (h0 : scanTable N b.length b.game_table a y = 0) :
    b.game_table a y = 0
      ∨ (0 < b.game_table a y ∧ b.game_table a y = (b.length : Int)) := by
  have hb := snake_bound hrep
  unfold scanTable at h0
  rw [if_pos ⟨ha, hy⟩] at h0
  rcases cellRule_classify b.length (b.game_table a y) hlen (hb a ha y hy) with
    ⟨h1, h2⟩ | ⟨h1, h2, h3⟩ | ⟨h1, h2, h3⟩
  · rw [h2] at h0
    exact Or.inl h0
  · exact Or.inr ⟨h1, h2⟩
  · rw [h3] at h0
    omega

theorem snake_scan_food {N : Nat} {b : Board N} {s : List Point} (hrep : SnakeRep b s)
    (hlen : b.length ≤ 127) {a y : Nat} (ha : a < N) (hy : y < N)
    (h0 : scanTable N b.length b.game_table a y = -2) :
    b.game_table a y = -2 :=
  (scanTable_eq_neg_iff N b.length b.game_table hlen (snake_bound hrep) a y (-2)
    (by omega)).mp h0

theorem snake_scan_pos {N : Nat} {b : Board N} {s : List Point} (hrep : SnakeRep b s)
    (hlen : b.length ≤ 127) {a y : Nat} (ha : a < N) (hy : y < N)
    (hp : 0 < scanTable N b.length b.game_table a y) :
    0 < b.game_table a y := by
  have hb := snake_bound hrep
  unfold scanTable at hp
  rw [if_pos ⟨ha, hy⟩] at hp
  rcases cellRule_classify b.length (b.game_table a y) hlen (hb a ha y hy) with
    ⟨h1, h2⟩ | ⟨h1, h2, h3⟩ | ⟨h1, h2, h3⟩
  · rw [h2] at hp
    omega
  · exact h1
  · exact h1

/-! ## The three outcomes of a tick -/

/-- Resulting board of a normal move onto an empty (post-scan) cell `q`. -/
def moveBoard {N : Nat} (b : Board N) (q : Point) : Board N :=
  { b with game_table := upd (scanTable N b.length b.game_table) q 1 }

/-- Resulting board of a growth tick: tail cell `tl` rewritten with the new
length, head written at `q`, new food at `lunch`. -/
def growBoard {N : Nat} (b : Board N) (tl q lunch : Point) : Board N :=
  { game_table :=
      upd (upd (upd (scanTable N b.length b.game_table) tl
        (toI8 ((b.length + 1) % 256))) q 1) lunch (-2)
    length := (b.length + 1) % 256
    score := b.score + 1
    direction := b.direction }

/-- Resulting board of a collision tick (scan applied, nothing else). -/
def collideBoard {N : Nat} (b : Board N) : Board N :=
  { b with game_table := scanTable N b.length b.game_table }

theorem snake_walk_eval {N : Nat} (b : Board N) (s : List Point) (q : Point)
    (lunch : Point) (hN : 3 ≤ N) (hlen : b.length ≤ 127) (h2 : 2 ≤ b.length)
    (hrep : SnakeRep b s)
    (hsd : stepDir b.direction (s.getD 0 ⟨0, 0⟩) = some q)
    (hqx : q.x < N) (hqy : q.y < N) :
    walk b lunch =
      if scanTable N b.length b.game_table q.x q.y = -2 then
        some (true, growBoard b (s.getD (b.length - 1) ⟨0, 0⟩) q lunch)
      else if scanTable N b.length b.game_table q.x q.y = 0 then
        some (true, moveBoard b q)
      else
        some (false, collideBoard b) := by
  have hscan := walkScan_some_head b (some (s.getD (b.length - 1) ⟨0, 0⟩))
    (s.getD 0 ⟨0, 0⟩) q hN hlen (snake_bound hrep)
    (snake_tailSpec hrep hlen (by omega)) (snake_headSpec hrep h2) hsd
  rw [Option.getD_some] at hscan
  rw [walk_of_scan b lunch _ _ q hscan hqx hqy]
  rfl

theorem snake_walk_panic {N : Nat} (b : Board N) (s : List Point)
    (lunch : Point) (hN : 3 ≤ N) (hlen : b.length ≤ 127) (h2 : 2 ≤ b.length)
    (hrep : SnakeRep b s)
    (hsd : stepDir b.direction (s.getD 0 ⟨0, 0⟩) = none) :
    walk b lunch = none := by
  have hscan := walkScan_some_head_panic b (some (s.getD (b.length - 1) ⟨0, 0⟩))
    (s.getD 0 ⟨0, 0⟩) hN hlen (snake_bound hrep)
    (snake_tailSpec hrep hlen (by omega)) (snake_headSpec hrep h2) hsd
  exact walk_of_scan_panic b lunch hscan

theorem snake_walk_oob {N : Nat} (b : Board N) (s : List Point) (q : Point)
    (lunch : Point) (hN : 3 ≤ N) (hlen : b.length ≤ 127) (h2 : 2 ≤ b.length)
    (hrep : SnakeRep b s)
    (hsd : stepDir b.direction (s.getD 0 ⟨0, 0⟩) = some q)
    (hq : ¬(q.x < N ∧ q.y < N)) :
    walk b lunch = none := by
  have hscan := walkScan_some_head b (some (s.getD (b.length - 1) ⟨0, 0⟩))
    (s.getD 0 ⟨0, 0⟩) q hN hlen (snake_bound hrep)
    (snake_tailSpec hrep hlen (by omega)) (snake_headSpec hrep h2) hsd
  exact walk_of_scan_oob b lunch _ _ q hscan hq

/-- A `walk` from a state with `length ≤ 1` returns `false` (and never `true`),
provided cell `(0,0)` is a wall: with a single-segment snake the head cell is
cleared as the tail and head detection never fires, so the default
`head_point = (0,0)` is probed. -/
theorem snake_walk_short {N : Nat} (b : Board N) (s : List Point)
    (lunch : Point) (hN : 3 ≤ N) (hlen : b.length ≤ 127) (h1 : b.length ≤ 1)
    (hrep : SnakeRep b s) (hzero : b.game_table 0 0 = -1) :
    walk b lunch = some (false, collideBoard b) := by
  have hH := snake_headSpec1 hrep h1
  have hb := snake_bound hrep
  have hval : scanTable N b.length b.game_table 0 0 = -1 :=
    (scanTable_eq_neg_iff N b.length b.game_table hlen hb 0 0 (-1) (by omega)).mpr hzero
  rcases Nat.lt_or_ge b.length 1 with h0 | h0
  · have hscan := walkScan_no_head b none hN hlen hb (snake_tailSpec0 hrep (by omega)) hH
    rw [walk_of_scan b lunch _ _ ⟨0, 0⟩ hscan (show 0 < N by omega) (show 0 < N by omega)]
    rw [if_neg (by rw [hval]; omega), if_neg (by rw [hval]; omega)]
    rfl
  · have hscan := walkScan_no_head b (some (s.getD (b.length - 1) ⟨0, 0⟩)) hN hlen hb
      (snake_tailSpec hrep hlen h0) hH
    rw [Option.getD_some] at hscan
    rw [walk_of_scan b lunch _ _ ⟨0, 0⟩ hscan (show 0 < N by omega) (show 0 < N by omega)]
    rw [if_neg (by rw [hval]; omega), if_neg (by rw [hval]; omega)]
    rfl

/-! ## Preservation of the invariants by one tick -/

theorem point_eq {a y : Nat} {p : Point} (h1 : a = p.x) (h2 : y = p.y) :
    (⟨a, y⟩ : Point) = p := by
  cases p
  cases h1
  cases h2
  rfl

theorem scanTable_pos (N len : Nat) (t0 : Table) (hlen : len ≤ 127)
    (hb : ∀ a, a < N → ∀ y, y < N → 0 < t0 a y → t0 a y ≤ (len : Int))
    (a y : Nat) (ha : a < N) (hy : y < N)
    (hp : 0 < scanTable N len t0 a y) : 0 < t0 a y := by
  unfold scanTable at hp
  rw [if_pos ⟨ha, hy⟩] at hp
  rcases cellRule_classify len (t0 a y) hlen (hb a ha y hy) with
    ⟨h1, h2⟩ | ⟨h1, h2, h3⟩ | ⟨h1, h2, h3⟩
  · rw [h2] at hp
    omega
  · exact h1
  · exact h1

theorem dropLast_getD (s : List Point) (i : Nat) (hi : i < s.length - 1) :
    s.dropLast.getD i ⟨0, 0⟩ = s.getD i ⟨0, 0⟩ := by
  have h1 : i < s.dropLast.length := by rw [List.length_dropLast]; omega
  rw [List.getD_eq_getElem _ _ h1, List.getElem_dropLast,
    List.getD_eq_getElem _ _ (by omega)]

theorem snake_move_rep {N : Nat} (b : Board N) (s : List Point) (q : Point)
    (hN : 3 ≤ N) (hlen : b.length ≤ 127) (h2 : 2 ≤ b.length) (hrep : SnakeRep b s)
    (hadjq : Adjacent q (s.getD 0 ⟨0, 0⟩)) (hqx : q.x < N) (hqy : q.y < N)
    (htgt : scanTable N b.length b.game_table q.x q.y = 0) :
    SnakeRep (moveBoard b q) (q :: s.dropLast) := by
  have hq0 := snake_scan_target hrep hlen hqx hqy htgt
  obtain ⟨hl, hval, hmem, hadj, hgrid⟩ := hrep
  have hslen : s.length = b.length := hl
  have hqne : ∀ i, i < s.length - 1 →
      ¬(q.x = (s.getD i ⟨0, 0⟩).x ∧ q.y = (s.getD i ⟨0, 0⟩).y) := by
    intro i hi hc
    have hv := hval i (by omega)
    rw [← hc.1, ← hc.2] at hv
    rcases hq0 with h | ⟨-, h⟩ <;> rw [h] at hv <;> omega
  refine ⟨?_, ?_, ?_, ?_, ?_⟩
  · simp only [List.length_cons, List.length_dropLast, moveBoard]
    omega
  · intro i hi
    cases i with
    | zero =>
      rw [List.getD_cons_zero]
      show upd (scanTable N b.length b.game_table) q 1 q.x q.y = 0 + 1
      rw [upd_self]
      norm_num
    | succ i =>
      simp only [List.length_cons, List.length_dropLast] at hi
      have hi2 : i < s.length - 1 := by omega
      rw [List.getD_cons_succ, dropLast_getD s i hi2]
      show upd (scanTable N b.length b.game_table) q 1 _ _ = _
      rw [upd_of_ne _ _ _ _ _ (fun hc => hqne i hi2 ⟨hc.1.symm, hc.2.symm⟩)]
      rw [snake_scan_body ⟨hl, hval, hmem, hadj, hgrid⟩ hlen i hi2]
      push_cast
      ring
  · intro a ha y hy hpos
    by_cases hc : a = q.x ∧ y = q.y
    · rw [point_eq hc.1 hc.2]
      exact List.mem_cons_self _ _
    · show _ ∈ _
      have hpos2 : 0 < scanTable N b.length b.game_table a y := by
        have : upd (scanTable N b.length b.game_table) q 1 a y
            = scanTable N b.length b.game_table a y := upd_of_ne _ _ _ _ _ hc
        rw [show (moveBoard b q).game_table = upd (scanTable N b.length b.game_table) q 1
          from rfl] at hpos
        rw [this] at hpos
        exact hpos
      have ht0 := scanTable_pos N b.length b.game_table hlen
        (snake_bound ⟨hl, hval, hmem, hadj, hgrid⟩) a y ha hy hpos2
      obtain ⟨i, hi, he⟩ := snake_mem_getD (hmem a ha y hy ht0)
      by_cases hitail : i = b.length - 1
      · exfalso
        have := snake_scan_tail ⟨hl, hval, hmem, hadj, hgrid⟩ hlen (by omega)
        rw [← hitail, he] at this
        rw [this] at hpos2
        omega
      · have hi2 : i < s.length - 1 := by omega
        refine List.mem_cons_of_mem _ ?_
        rw [← he, ← dropLast_getD s i hi2]
        exact snake_getD_mem (by rw [List.length_dropLast]; omega)
  · intro i hi
    simp only [List.length_cons, List.length_dropLast] at hi
    cases i with
    | zero =>
      rw [List.getD_cons_zero, List.getD_cons_succ, dropLast_getD s 0 (by omega)]
      exact hadjq
    | succ i =>
      rw [List.getD_cons_succ, List.getD_cons_succ,
        dropLast_getD s i (by omega), dropLast_getD s (i + 1) (by omega)]
      exact hadj i (by omega)
  · intro p hp
    rcases List.mem_cons.mp hp with h | h
    · rw [h]
      exact ⟨hqx, hqy⟩
    · exact hgrid p (List.dropLast_subset s h)

theorem move_food {N : Nat} (b : Board N) (s : List Point) (q : Point)
    (hN : 3 ≤ N) (hlen : b.length ≤ 127) (h2 : 2 ≤ b.length) (hrep : SnakeRep b s)
    (hqx : q.x < N) (hqy : q.y < N)
    (htgt : scanTable N b.length b.game_table q.x q.y = 0)
    (hfood : FoodOk b) : FoodOk (moveBoard b q) := by
  have hq0 := snake_scan_target hrep hlen hqx hqy htgt
  have hb := snake_bound hrep
  obtain ⟨pF, hFx, hFy, hFv, hFi1, hFi2, hFi3, hFi4, hFu⟩ := hfood
  have hFq : ¬(pF.x = q.x ∧ pF.y = q.y) := by
    intro hc
    rw [hc.1, hc.2] at hFv
    rcases hq0 with h | ⟨-, h⟩ <;> rw [h] at hFv <;> omega
  refine ⟨pF, hFx, hFy, ?_, hFi1, hFi2, hFi3, hFi4, ?_⟩
  · show upd (scanTable N b.length b.game_table) q 1 pF.x pF.y = -2
    rw [upd_of_ne _ _ _ _ _ hFq, scanTable_nonpos _ _ _ _ _ (by omega)]
    exact hFv
  · intro a ha y hy hv
    by_cases hc : a = q.x ∧ y = q.y
    · exfalso
      have : upd (scanTable N b.length b.game_table) q 1 a y = 1 := by
        rw [hc.1, hc.2]
        exact upd_self _ _ _
      rw [show (moveBoard b q).game_table = upd (scanTable N b.length b.game_table) q 1
        from rfl] at hv
      rw [this] at hv
      omega
    · apply hFu a ha y hy
      rw [show (moveBoard b q).game_table = upd (scanTable N b.length b.game_table) q 1
        from rfl] at hv
      rw [upd_of_ne _ _ _ _ _ hc] at hv
      exact (scanTable_eq_neg_iff N b.length b.game_table hlen hb a y (-2) (by omega)).mp hv

theorem move_zero {N : Nat} (b : Board N) (s : List Point) (q : Point)
    (hN : 3 ≤ N) (hlen : b.length ≤ 127) (h2 : 2 ≤ b.length) (hrep : SnakeRep b s)
    (hqx : q.x < N) (hqy : q.y < N)
    (htgt : scanTable N b.length b.game_table q.x q.y = 0)
    (hzero : b.game_table 0 0 = -1) : (moveBoard b q).game_table 0 0 = -1 := by
  have hq0 := snake_scan_target hrep hlen hqx hqy htgt
  show upd (scanTable N b.length b.game_table) q 1 0 0 = -1
  have hne : ¬((0 : Nat) = q.x ∧ (0 : Nat) = q.y) := by
    intro hc
    rw [← hc.1, ← hc.2] at hq0
    rcases hq0 with h | ⟨-, h⟩ <;> rw [hzero] at h <;> omega
  rw [upd_of_ne _ _ _ _ _ hne, scanTable_nonpos _ _ _ _ _ (by rw [hzero]; omega)]
  exact hzero

theorem move_ring {N : Nat} (b : Board N) (s : List Point) (q : Point)
    (hN : 3 ≤ N) (hlen : b.length ≤ 127) (h2 : 2 ≤ b.length) (hrep : SnakeRep b s)
    (hqx : q.x < N) (hqy : q.y < N)
    (htgt : scanTable N b.length b.game_table q.x q.y = 0)
    (hring : RingOk b) (hint : InteriorS N s) :
    RingOk (moveBoard b q) ∧ InteriorS N (q :: s.dropLast) := by
  have hq0 := snake_scan_target hrep hlen hqx hqy htgt
  have hqint : 1 ≤ q.x ∧ q.x ≤ N - 2 ∧ 1 ≤ q.y ∧ q.y ≤ N - 2 := by
    rcases hq0 with h | ⟨hpos, h⟩
    · by_cases hr : q.x = 0 ∨ q.x = N - 1 ∨ q.y = 0 ∨ q.y = N - 1
      · rw [hring q.x hqx q.y hqy hr] at h
        omega
      · omega
    · have hc := snake_value_at hrep hqx hqy
        (show b.length - 1 < s.length by obtain ⟨hl, -⟩ := hrep; omega)
        (by rw [h]; omega)
      have := hint _ (snake_getD_mem
        (show b.length - 1 < s.length by obtain ⟨hl, -⟩ := hrep; omega))
      omega
  constructor
  · intro a ha y hy hr
    show upd (scanTable N b.length b.game_table) q 1 a y = -1
    have hne : ¬(a = q.x ∧ y = q.y) := by
      intro hc
      obtain ⟨hc1, hc2⟩ := hc
      subst hc1; subst hc2
      omega
    have hwall := hring a ha y hy hr
    rw [upd_of_ne _ _ _ _ _ hne, scanTable_nonpos _ _ _ _ _ (by rw [hwall]; omega)]
    exact hwall
  · intro p hp
    rcases List.mem_cons.mp hp with h | h
    · rw [h]
      exact hqint
    · exact hint p (List.dropLast_subset s h)

theorem point_eq2 {p r : Point} (h1 : p.x = r.x) (h2 : p.y = r.y) : p = r := by
  cases p
  cases r
  cases h1
  cases h2
  rfl

theorem snake_grow_rep {N : Nat} (b : Board N) (s : List Point) (q lunch : Point)
    (hN : 3 ≤ N) (h126 : b.length ≤ 126) (h2 : 2 ≤ b.length) (hrep : SnakeRep b s)
    (hadjq : Adjacent q (s.getD 0 ⟨0, 0⟩)) (hqx : q.x < N) (hqy : q.y < N)
    (htgt : scanTable N b.length b.game_table q.x q.y = -2)
    (hlunch : LunchOk N
      (upd (upd (scanTable N b.length b.game_table) (s.getD (b.length - 1) ⟨0, 0⟩)
        (toI8 ((b.length + 1) % 256))) q 1) lunch) :
    SnakeRep (growBoard b (s.getD (b.length - 1) ⟨0, 0⟩) q lunch) (q :: s) := by
  have hlen : b.length ≤ 127 := by omega
  have hfq : b.game_table q.x q.y = -2 := snake_scan_food hrep hlen hqx hqy htgt
  have hmod : (b.length + 1) % 256 = b.length + 1 := Nat.mod_eq_of_lt (by omega)
  have hv8 : toI8 ((b.length + 1) % 256) = ((b.length : Int) + 1) := by
    rw [hmod, toI8_of_le _ (by omega)]
    push_cast
    ring
  obtain ⟨hl, hval, hmem, hadj, hgrid⟩ := hrep
  have hrep2 : SnakeRep b s := ⟨hl, hval, hmem, hadj, hgrid⟩
  have htlv : b.game_table (s.getD (b.length - 1) ⟨0, 0⟩).x
      (s.getD (b.length - 1) ⟨0, 0⟩).y = (b.length : Int) := by
    have hvv := hval (b.length - 1) (by omega)
    rw [hvv]
    omega
  have hqtl : ¬(q.x = (s.getD (b.length - 1) ⟨0, 0⟩).x
      ∧ q.y = (s.getD (b.length - 1) ⟨0, 0⟩).y) := by
    intro hc
    rw [← hc.1, ← hc.2] at htlv
    rw [hfq] at htlv
    omega
  obtain ⟨hlu1, hlu2, hlu3, hlu4, hlu5⟩ := hlunch
  have hlq : ¬(lunch.x = q.x ∧ lunch.y = q.y) := by
    intro hc
    rw [hc.1, hc.2] at hlu5
    rw [upd_self] at hlu5
    omega
  have htltl : upd (upd (scanTable N b.length b.game_table)
        (s.getD (b.length - 1) ⟨0, 0⟩) (toI8 ((b.length + 1) % 256))) q 1
        (s.getD (b.length - 1) ⟨0, 0⟩).x (s.getD (b.length - 1) ⟨0, 0⟩).y
      = (b.length : Int) + 1 := by
    rw [upd_of_ne _ _ _ _ _ (fun hc => hqtl ⟨hc.1.symm, hc.2.symm⟩)]
    rw [upd_self, hv8]
  have hltl : ¬(lunch.x = (s.getD (b.length - 1) ⟨0, 0⟩).x
      ∧ lunch.y = (s.getD (b.length - 1) ⟨0, 0⟩).y) := by
    intro hc
    rw [hc.1, hc.2] at hlu5
    rw [htltl] at hlu5
    omega
  have htb : (growBoard b (s.getD (b.length - 1) ⟨0, 0⟩) q lunch).game_table
      = upd (upd (upd (scanTable N b.length b.game_table)
          (s.getD (b.length - 1) ⟨0, 0⟩) (toI8 ((b.length + 1) % 256))) q 1)
          lunch (-2) := rfl
  refine ⟨?_, ?_, ?_, ?_, ?_⟩
  · show (q :: s).length = (b.length + 1) % 256
    rw [hmod, List.length_cons, hl]
  · intro i hi
    rw [htb]
    cases i with
    | zero =>
      rw [List.getD_cons_zero]
      rw [upd_of_ne _ _ _ _ _ (fun hc => hlq ⟨hc.1.symm, hc.2.symm⟩)]
      rw [upd_self]
      norm_num
    | succ i =>
      simp only [List.length_cons] at hi
      have hi2 : i < s.length := by omega
      rw [List.getD_cons_succ]
      by_cases hitail : i = b.length - 1
      · subst hitail
        rw [upd_of_ne _ _ _ _ _ (fun hc => hltl ⟨hc.1.symm, hc.2.symm⟩)]
        rw [htltl]
        omega
      · have hi3 : i < s.length - 1 := by omega
        have hne_tl : ¬((s.getD i ⟨0, 0⟩).x = (s.getD (b.length - 1) ⟨0, 0⟩).x
            ∧ (s.getD i ⟨0, 0⟩).y = (s.getD (b.length - 1) ⟨0, 0⟩).y) := by
          intro hc
          exact hitail (snake_idx_inj hrep2 hi2 (by omega) (point_eq2 hc.1 hc.2))
        have hne_q : ¬((s.getD i ⟨0, 0⟩).x = q.x ∧ (s.getD i ⟨0, 0⟩).y = q.y) := by
          intro hc
          have hvv := hval i hi2
          rw [hc.1, hc.2, hfq] at hvv
          omega
        have hscanv := snake_scan_body hrep2 hlen i hi3
        have hmid : upd (upd (scanTable N b.length b.game_table)
              (s.getD (b.length - 1) ⟨0, 0⟩) (toI8 ((b.length + 1) % 256))) q 1
              (s.getD i ⟨0, 0⟩).x (s.getD i ⟨0, 0⟩).y = (i : Int) + 2 := by
          rw [upd_of_ne _ _ _ _ _ hne_q, upd_of_ne _ _ _ _ _ hne_tl]
          exact hscanv
        have hlne : ¬((s.getD i ⟨0, 0⟩).x = lunch.x
            ∧ (s.getD i ⟨0, 0⟩).y = lunch.y) := by
          intro hc
          rw [← hc.1, ← hc.2] at hlu5
          rw [hmid] at hlu5
          omega
        rw [upd_of_ne _ _ _ _ _ hlne]
        rw [hmid]
        push_cast
        ring
  · intro a ha y hy hpos
    rw [htb] at hpos
    by_cases hcl : a = lunch.x ∧ y = lunch.y
    · exfalso
      rw [hcl.1, hcl.2] at hpos
      rw [upd_self] at hpos
      omega
    · rw [upd_of_ne _ _ _ _ _ hcl] at hpos
      by_cases hcq : a = q.x ∧ y = q.y
      · rw [point_eq hcq.1 hcq.2]
        exact List.mem_cons_self _ _
      · rw [upd_of_ne _ _ _ _ _ hcq] at hpos
        by_cases hctl : a = (s.getD (b.length - 1) ⟨0, 0⟩).x
            ∧ y = (s.getD (b.length - 1) ⟨0, 0⟩).y
        · rw [point_eq hctl.1 hctl.2]
          exact List.mem_cons_of_mem _ (snake_getD_mem (by omega))
        · rw [upd_of_ne _ _ _ _ _ hctl] at hpos
          have ht0 := scanTable_pos N b.length b.game_table hlen
            (snake_bound hrep2) a y ha hy hpos
          exact List.mem_cons_of_mem _ (hmem a ha y hy ht0)
  · intro i hi
    simp only [List.length_cons] at hi
    cases i with
    | zero =>
      rw [List.getD_cons_zero, List.getD_cons_succ]
      exact hadjq
    | succ i =>
      rw [List.getD_cons_succ, List.getD_cons_succ]
      exact hadj i (by omega)
  · intro p hp
    rcases List.mem_cons.mp hp with h | h
    · rw [h]
      exact ⟨hqx, hqy⟩
    · exact hgrid p h

theorem grow_food {N : Nat} (b : Board N) (s : List Point) (q lunch : Point)
    (hN : 3 ≤ N) (hlen : b.length ≤ 127) (h2 : 2 ≤ b.length) (hrep : SnakeRep b s)
    (hqx : q.x < N) (hqy : q.y < N)
    (htgt : scanTable N b.length b.game_table q.x q.y = -2)
    (hlunch : LunchOk N
      (upd (upd (scanTable N b.length b.game_table) (s.getD (b.length - 1) ⟨0, 0⟩)
        (toI8 ((b.length + 1) % 256))) q 1) lunch)
    (hfood : FoodOk b) :
    FoodOk (growBoard b (s.getD (b.length - 1) ⟨0, 0⟩) q lunch) := by
  have hfq : b.game_table q.x q.y = -2 := snake_scan_food hrep hlen hqx hqy htgt
  have hb := snake_bound hrep
  obtain ⟨hlu1, hlu2, hlu3, hlu4, hlu5⟩ := hlunch
  obtain ⟨pF, hFx, hFy, hFv, -, -, -, -, hFu⟩ := hfood
  have hqF : q.x = pF.x ∧ q.y = pF.y := hFu q.x hqx q.y hqy hfq
  have htb : (growBoard b (s.getD (b.length - 1) ⟨0, 0⟩) q lunch).game_table
      = upd (upd (upd (scanTable N b.length b.game_table)
          (s.getD (b.length - 1) ⟨0, 0⟩) (toI8 ((b.length + 1) % 256))) q 1)
          lunch (-2) := rfl
  refine ⟨lunch, by omega, by omega, ?_, hlu1, hlu2, hlu3, hlu4, ?_⟩
  · rw [htb]
    exact upd_self _ _ _
  · intro a ha y hy hv
    rw [htb] at hv
    by_cases hcl : a = lunch.x ∧ y = lunch.y
    · exact hcl
    · exfalso
      rw [upd_of_ne _ _ _ _ _ hcl] at hv
      by_cases hcq : a = q.x ∧ y = q.y
      · rw [hcq.1, hcq.2] at hv
        rw [upd_self] at hv
        omega
      · rw [upd_of_ne _ _ _ _ _ hcq] at hv
        by_cases hctl : a = (s.getD (b.length - 1) ⟨0, 0⟩).x
            ∧ y = (s.getD (b.length - 1) ⟨0, 0⟩).y
        · rw [hctl.1, hctl.2] at hv
          rw [upd_self] at hv
          have h1 := toI8_ge ((b.length + 1) % 256)
          have h2 := toI8_le ((b.length + 1) % 256)
          have h3 : toI8 ((b.length + 1) % 256) ≠ -2 := by
            unfold toI8
            split <;> omega
          exact h3 hv
        · rw [upd_of_ne _ _ _ _ _ hctl] at hv
          have ht0 : b.game_table a y = -2 :=
            (scanTable_eq_neg_iff N b.length b.game_table hlen hb a y (-2)
              (by omega)).mp hv
          have := hFu a ha y hy ht0
          exact hcq ⟨this.1.trans hqF.1.symm, this.2.trans hqF.2.symm⟩

theorem grow_zero {N : Nat} (b : Board N) (s : List Point) (q lunch : Point)
    (hN : 3 ≤ N) (hlen : b.length ≤ 127) (h2 : 2 ≤ b.length) (hrep : SnakeRep b s)
    (hqx : q.x < N) (hqy : q.y < N)
    (htgt : scanTable N b.length b.game_table q.x q.y = -2)
    (hlunch : LunchOk N
      (upd (upd (scanTable N b.length b.game_table) (s.getD (b.length - 1) ⟨0, 0⟩)
        (toI8 ((b.length + 1) % 256))) q 1) lunch)
    (hzero : b.game_table 0 0 = -1) :
    (growBoard b (s.getD (b.length - 1) ⟨0, 0⟩) q lunch).game_table 0 0 = -1 := by
  have hfq : b.game_table q.x q.y = -2 := snake_scan_food hrep hlen hqx hqy htgt
  obtain ⟨hl, hval, hmem, hadj, hgrid⟩ := hrep
  have htlv := hval (b.length - 1) (by omega)
  show upd (upd (upd (scanTable N b.length b.game_table)
      (s.getD (b.length - 1) ⟨0, 0⟩) (toI8 ((b.length + 1) % 256))) q 1)
      lunch (-2) 0 0 = -1
  obtain ⟨hlu1, -, hlu3, -, -⟩ := hlunch
  rw [upd_of_ne _ _ _ _ _ (by omega)]
  rw [upd_of_ne _ _ _ _ _ (by intro hc; rw [← hc.1, ← hc.2] at hfq; rw [hzero] at hfq; omega)]
  rw [upd_of_ne _ _ _ _ _ (by intro hc; rw [← hc.1, ← hc.2] at htlv; rw [hzero] at htlv; omega)]
  rw [scanTable_nonpos _ _ _ _ _ (by rw [hzero]; omega)]
  exact hzero

theorem grow_ring {N : Nat} (b : Board N) (s : List Point) (q lunch : Point)
    (hN : 3 ≤ N) (hlen : b.length ≤ 127) (h2 : 2 ≤ b.length) (hrep : SnakeRep b s)
    (hqx : q.x < N) (hqy : q.y < N)
    (htgt : scanTable N b.length b.game_table q.x q.y = -2)
    (hlunch : LunchOk N
      (upd (upd (scanTable N b.length b.game_table) (s.getD (b.length - 1) ⟨0, 0⟩)
        (toI8 ((b.length + 1) % 256))) q 1) lunch)
    (hring : RingOk b) (hint : InteriorS N s) :
    RingOk (growBoard b (s.getD (b.length - 1) ⟨0, 0⟩) q lunch)
      ∧ InteriorS N (q :: s) := by
  have hfq : b.game_table q.x q.y = -2 := snake_scan_food hrep hlen hqx hqy htgt
  have hqint : 1 ≤ q.x ∧ q.x ≤ N - 2 ∧ 1 ≤ q.y ∧ q.y ≤ N - 2 := by
    by_cases hr : q.x = 0 ∨ q.x = N - 1 ∨ q.y = 0 ∨ q.y = N - 1
    · rw [hring q.x hqx q.y hqy hr] at hfq
      omega
    · omega
  have htlint := hint _ (snake_getD_mem
    (show b.length - 1 < s.length by obtain ⟨hl, -⟩ := hrep; omega))
  obtain ⟨hlu1, hlu2, hlu3, hlu4, -⟩ := hlunch
  constructor
  · intro a ha y hy hr
    show upd (upd (upd (scanTable N b.length b.game_table)
        (s.getD (b.length - 1) ⟨0, 0⟩) (toI8 ((b.length + 1) % 256))) q 1)
        lunch (-2) a y = -1
    have hwall := hring a ha y hy hr
    rw [upd_of_ne _ _ _ _ _ (by intro hc; obtain ⟨h1, h2⟩ := hc; subst h1; subst h2; omega)]
    rw [upd_of_ne _ _ _ _ _ (by intro hc; obtain ⟨h1, h2⟩ := hc; subst h1; subst h2; omega)]
    rw [upd_of_ne _ _ _ _ _ (by intro hc; obtain ⟨h1, h2⟩ := hc; subst h1; subst h2; omega)]
    rw [scanTable_nonpos _ _ _ _ _ (by rw [hwall]; omega)]
    exact hwall
  · intro p hp
    rcases List.mem_cons.mp hp with h | h
    · rw [h]
      exact hqint
    · exact hint p h

/-! ## Collision outcomes and the dead-state invariant -/

theorem collide_ring {N : Nat} (b : Board N) (hring : RingOk b) :
    RingOk (collideBoard b) := by
  intro a ha y hy hr
  have hwall := hring a ha y hy hr
  show scanTable N b.length b.game_table a y = -1
  rw [scanTable_nonpos _ _ _ _ _ (by rw [hwall]; omega)]
  exact hwall

theorem collide_zero {N : Nat} (b : Board N) (hzero : b.game_table 0 0 = -1) :
    (collideBoard b).game_table 0 0 = -1 := by
  show scanTable N b.length b.game_table 0 0 = -1
  rw [scanTable_nonpos _ _ _ _ _ (by rw [hzero]; omega)]
  exact hzero

theorem snake_collide_dead {N : Nat} (b : Board N) (s : List Point)
    (hN : 3 ≤ N) (hlen : b.length ≤ 127) (h1 : 1 ≤ b.length) (hrep : SnakeRep b s) :
    DeadRep (collideBoard b) 2 s.dropLast := by
  obtain ⟨hl, hval, hmem, hadj, hgrid⟩ := hrep
  have hrep2 : SnakeRep b s := ⟨hl, hval, hmem, hadj, hgrid⟩
  refine ⟨le_refl 2, ?_, ?_, ?_, ?_⟩
  · intro i hi
    rw [List.length_dropLast] at hi
    rw [dropLast_getD s i hi]
    show scanTable N b.length b.game_table _ _ = _
    rw [snake_scan_body hrep2 hlen i hi]
    push_cast
    ring
  · intro a ha y hy hpos
    have ht0 := scanTable_pos N b.length b.game_table hlen (snake_bound hrep2)
      a y ha hy hpos
    obtain ⟨i, hi, he⟩ := snake_mem_getD (hmem a ha y hy ht0)
    by_cases hitail : i = b.length - 1
    · exfalso
      have hsc := snake_scan_tail hrep2 hlen (by omega)
      rw [← hitail, he] at hsc
      have hpos2 : 0 < scanTable N b.length b.game_table a y := hpos
      have hzero2 : scanTable N b.length b.game_table a y = 0 := hsc
      omega
    · have hi2 : i < s.length - 1 := by omega
      rw [← he, ← dropLast_getD s i hi2]
      exact snake_getD_mem (by rw [List.length_dropLast]; omega)
  · intro hne
    rw [List.length_dropLast]
    show 2 + (s.length - 1) = b.length + 1
    omega
  · intro p hp
    exact hgrid p (List.dropLast_subset s hp)

theorem dead_bound {N : Nat} {b : Board N} {k : Nat} {s : List Point}
    (hdead : DeadRep b k s) :
    ∀ a, a < N → ∀ y, y < N →
      0 < b.game_table a y → b.game_table a y ≤ (b.length : Int) := by
  obtain ⟨hk, hval, hmem, hlen, hgrid⟩ := hdead
  intro a ha y hy hpos
  obtain ⟨i, hi, he⟩ := snake_mem_getD (hmem a ha y hy hpos)
  have hv := hval i hi
  rw [he] at hv
  have hne : s ≠ [] := by
    intro hc
    rw [hc] at hi
    simp at hi
  have := hlen hne
  rw [hv]
  omega

theorem dead_headSpec {N : Nat} {b : Board N} {k : Nat} {s : List Point}
    (hdead : DeadRep b k s) : HeadSpec N b.game_table b.length none := by
  obtain ⟨hk, hval, hmem, hlen, hgrid⟩ := hdead
  right
  intro a ha y hy hvv
  obtain ⟨i, hi, he⟩ := snake_mem_getD (hmem a ha y hy (by rw [hvv]; norm_num))
  have hv := hval i hi
  rw [he, hvv] at hv
  omega

theorem dead_tailSpec_nil {N : Nat} {b : Board N} {k : Nat}
    (hdead : DeadRep b k ([] : List Point)) :
    TailSpec N b.game_table b.length none := by
  obtain ⟨hk, hval, hmem, hlen, hgrid⟩ := hdead
  intro a ha y hy hc
  exact absurd (hmem a ha y hy hc.1) (List.not_mem_nil _)

theorem dead_tailSpec {N : Nat} {b : Board N} {k : Nat} {s : List Point}
    (hdead : DeadRep b k s) (hs : s ≠ []) :
    TailSpec N b.game_table b.length (some (s.getD (s.length - 1) ⟨0, 0⟩)) := by
  obtain ⟨hk, hval, hmem, hlen, hgrid⟩ := hdead
  have hlens := hlen hs
  have hs1 : 1 ≤ s.length := by
    rcases Nat.eq_zero_or_pos s.length with h | h
    · exact absurd (List.eq_nil_of_length_eq_zero h) hs
    · exact h
  have hmm := snake_getD_mem (show s.length - 1 < s.length by omega)
  have hv := hval (s.length - 1) (by omega)
  refine ⟨(hgrid _ hmm).1, (hgrid _ hmm).2, by omega, by rw [hv]; omega, ?_⟩
  intro a ha y hy hvv
  have hpos : 0 < b.game_table a y := by rw [hvv]; omega
  obtain ⟨i, hi, he⟩ := snake_mem_getD (hmem a ha y hy hpos)
  have hvi := hval i hi
  rw [he, hvv] at hvi
  have hieq : i = s.length - 1 := by omega
  subst hieq
  rw [he]
  exact ⟨rfl, rfl⟩

theorem dead_walk {N : Nat} (b : Board N) (k : Nat) (s : List Point) (lunch : Point)
    (hN : 3 ≤ N) (hlen : b.length ≤ 127) (hdead : DeadRep b k s) (hring : RingOk b) :
    walk b lunch = some (false, collideBoard b)
      ∧ DeadRep (collideBoard b) (k + 1) s.dropLast := by
  have hb := dead_bound hdead
  have hH := dead_headSpec hdead
  have hwall : b.game_table 0 0 = -1 := hring 0 (by omega) 0 (by omega) (Or.inl rfl)
  have hscan00 : scanTable N b.length b.game_table 0 0 = -1 := by
    rw [scanTable_nonpos _ _ _ _ _ (by rw [hwall]; omega)]
    exact hwall
  have hwalkeq : walk b lunch = some (false, collideBoard b) := by
    by_cases hs : s = []
    · subst hs
      have hscan := walkScan_no_head b none hN hlen hb (dead_tailSpec_nil hdead) hH
      rw [walk_of_scan b lunch _ _ ⟨0, 0⟩ hscan (show 0 < N by omega) (show 0 < N by omega)]
      rw [if_neg (by rw [hscan00]; omega), if_neg (by rw [hscan00]; omega)]
      rfl
    · have hscan := walkScan_no_head b (some (s.getD (s.length - 1) ⟨0, 0⟩)) hN hlen hb
        (dead_tailSpec hdead hs) hH
      rw [Option.getD_some] at hscan
      rw [walk_of_scan b lunch _ _ ⟨0, 0⟩ hscan (show 0 < N by omega) (show 0 < N by omega)]
      rw [if_neg (by rw [hscan00]; omega), if_neg (by rw [hscan00]; omega)]
      rfl
  refine ⟨hwalkeq, ?_⟩
  obtain ⟨hk, hval, hmem, hlens, hgrid⟩ := hdead
  have hdead2 : DeadRep b k s := ⟨hk, hval, hmem, hlens, hgrid⟩
  refine ⟨by omega, ?_, ?_, ?_, ?_⟩
  · intro i hi
    rw [List.length_dropLast] at hi
    rw [dropLast_getD s i hi]
    have hs : s ≠ [] := by
      intro hc
      rw [hc] at hi
      simp at hi
    have hltot := hlens hs
    have hv := hval i (by omega)
    have hmm := snake_getD_mem (show i < s.length by omega)
    have hg := hgrid _ hmm
    show scanTable N b.length b.game_table _ _ = _
    unfold scanTable
    rw [if_pos hg, hv]
    rw [cellRule_inc _ _ (by omega) (by rw [toI8_of_le _ hlen]; omega)]
    rw [wrap8_of_bounds _ (by omega) (by omega)]
    push_cast
    ring
  · intro a ha y hy hpos
    have hpos2 : 0 < scanTable N b.length b.game_table a y := hpos
    have ht0 := scanTable_pos N b.length b.game_table hlen hb a y ha hy hpos2
    obtain ⟨i, hi, he⟩ := snake_mem_getD (hmem a ha y hy ht0)
    have hs : s ≠ [] := by
      intro hc
      rw [hc] at hi
      simp at hi
    have hltot := hlens hs
    by_cases hitail : i = s.length - 1
    · exfalso
      have hv := hval i hi
      rw [he] at hv
      have : scanTable N b.length b.game_table a y = 0 := by
        unfold scanTable
        rw [if_pos ⟨ha, hy⟩, hv]
        exact cellRule_tail _ _ (by omega) (by rw [toI8_of_le _ hlen]; omega)
      omega
    · have hi2 : i < s.length - 1 := by omega
      rw [← he, ← dropLast_getD s i hi2]
      exact snake_getD_mem (by rw [List.length_dropLast]; omega)
  · intro hne
    rw [List.length_dropLast]
    have hs : s ≠ [] := by
      intro hc
      rw [hc] at hne
      simp at hne
    have hltot := hlens hs
    have hs2 : 2 ≤ s.length := by
      rcases Nat.lt_or_ge s.length 2 with h | h
      · exfalso
        rcases Nat.lt_or_ge s.length 1 with h1 | h1
        · exact hs (List.eq_nil_of_length_eq_zero (by omega))
        · have : s.length = 1 := by omega
          apply hne
          have : s.dropLast.length = 0 := by rw [List.length_dropLast]; omega
          exact List.eq_nil_of_length_eq_zero this
      · exact h
    show k + 1 + (s.length - 1) = b.length + 1
    omega
  · intro p hp
    exact hgrid p (List.dropLast_subset s hp)

/-! ## The initial state -/

theorem new_ok (N length : Nat) (lunch : Point) (h : length + 2 ≤ N) :
    new N length lunch = .ok (mkBoard N length lunch) := by
  unfold new
  rw [if_neg (by omega)]

theorem new_err (N length : Nat) (lunch : Point) (h : N < length + 2) :
    ∃ e, new N length lunch = .error e := by
  unfold new
  rw [if_pos (by omega)]
  exact ⟨_, rfl⟩

/-- The initial snake, head-first: value `j+1` sits at `(half, cHi - j)`. -/
def initSnake (N length : Nat) : List Point :=
  (List.range length).map (fun j => ⟨(N - 1) / 2, cHi N length - j⟩)

theorem initSnake_length (N length : Nat) : (initSnake N length).length = length := by
  unfold initSnake
  rw [List.length_map, List.length_range]

theorem initSnake_getD (N length i : Nat) (hi : i < length) :
    (initSnake N length).getD i ⟨0, 0⟩ = ⟨(N - 1) / 2, cHi N length - i⟩ := by
  unfold initSnake
  rw [List.getD_eq_getElem _ _ (by rw [List.length_map, List.length_range]; omega)]
  simp

theorem half_interior (N : Nat) (hN : 3 ≤ N) :
    1 ≤ (N - 1) / 2 ∧ (N - 1) / 2 ≤ N - 2 := by omega

theorem init_table_body (N length y : Nat) (hNL : length + 2 ≤ N) (hL1 : 1 ≤ length)
    (hL : length ≤ 127) (lunch : Point)
    (hlunch : LunchOk N (preFoodTable N length) lunch)
    (hy1 : cLo N length ≤ y) (hy2 : y ≤ cHi N length) :
    create_table N length lunch ((N - 1) / 2) y
      = ((cHi N length + 1 - y : Nat) : Int) := by
  obtain ⟨hl1, hl2, hl3, hl4, hl5⟩ := hlunch
  have hpre : preFoodTable N length ((N - 1) / 2) y
      = toI8 (cHi N length + 1 - y) := by
    rw [preFoodTable_eval N length _ y hNL, if_pos ⟨rfl, hy1, hy2, hL1⟩]
  have hvpos : 1 ≤ cHi N length + 1 - y := by omega
  have hvle : cHi N length + 1 - y ≤ length := by
    have := cHi_ge N length hNL hL1
    unfold cLo at hy1
    omega
  have hne : ¬((N - 1) / 2 = lunch.x ∧ y = lunch.y) := by
    intro hc
    rw [← hc.1, ← hc.2] at hl5
    rw [hpre] at hl5
    rw [toI8_of_le _ (by omega)] at hl5
    omega
  unfold create_table
  rw [upd_of_ne _ _ _ _ _ hne, hpre, toI8_of_le _ (by omega)]

theorem init_rep (N length : Nat) (lunch : Point) (hN : 3 ≤ N) (hL : length ≤ 127)
    (hNL : length + 2 ≤ N) (hlunch : LunchOk N (preFoodTable N length) lunch) :
    SnakeRep (mkBoard N length lunch) (initSnake N length) := by
  have hhalf := half_interior N hN
  have hchi := cHi_lt N length hNL
  obtain ⟨hl1, hl2, hl3, hl4, hl5⟩ := hlunch
  refine ⟨?_, ?_, ?_, ?_, ?_⟩
  · rw [initSnake_length]
    rfl
  · intro i hi
    rw [initSnake_length] at hi
    rw [initSnake_getD N length i hi]
    have hge := cHi_ge N length hNL (by omega)
    have := init_table_body N length (cHi N length - i) hNL (by omega) hL lunch
      ⟨hl1, hl2, hl3, hl4, hl5⟩ (by unfold cLo; omega) (by omega)
    show create_table N length lunch ((N - 1) / 2) (cHi N length - i) = _
    rw [this]
    have : cHi N length + 1 - (cHi N length - i) = i + 1 := by omega
    rw [this]
    push_cast
    ring
  · intro a ha y hy hpos
    show (⟨a, y⟩ : Point) ∈ initSnake N length
    have hpos2 : 0 < create_table N length lunch a y := hpos
    unfold create_table at hpos2
    by_cases hcl : a = lunch.x ∧ y = lunch.y
    · exfalso
      rw [hcl.1, hcl.2] at hpos2
      rw [upd_self] at hpos2
      omega
    · rw [upd_of_ne _ _ _ _ _ hcl] at hpos2
      rw [preFoodTable_eval N length a y hNL] at hpos2
      by_cases hbody : a = (N - 1) / 2 ∧ cLo N length ≤ y ∧ y ≤ cHi N length
          ∧ 1 ≤ length
      · obtain ⟨hb1, hb2, hb3, hb4⟩ := hbody
        have hj : cHi N length - y < length := by
          have := cHi_ge N length hNL hb4
          unfold cLo at hb2
          omega
        have : (⟨a, y⟩ : Point) = (initSnake N length).getD (cHi N length - y) ⟨0, 0⟩ := by
          rw [initSnake_getD N length _ hj]
          exact point_eq hb1
            (show y = cHi N length - (cHi N length - y) by omega)
        rw [this]
        exact snake_getD_mem (by rw [initSnake_length]; omega)
      · exfalso
        rw [if_neg hbody] at hpos2
        unfold wallsT at hpos2
        split at hpos2 <;> omega
  · intro i hi
    rw [initSnake_length] at hi
    rw [initSnake_getD N length i (by omega), initSnake_getD N length (i + 1) (by omega)]
    have hge := cHi_ge N length hNL (by omega)
    left
    refine ⟨rfl, Or.inl ?_⟩
    show cHi N length - i = cHi N length - (i + 1) + 1
    omega
  · intro p hp
    unfold initSnake at hp
    obtain ⟨j, hj, he⟩ := List.mem_map.mp hp
    rw [← he]
    constructor
    · show (N - 1) / 2 < N
      omega
    · show cHi N length - j < N
      omega

/-- Every value `preFoodTable` can hold is at most 127 (body values pass
through `toI8`, walls are `-1`, empty cells `0`). -/
theorem preFoodTable_le (N length : Nat) (hNL : length + 2 ≤ N) (x y : Nat) :
    preFoodTable N length x y ≤ 127 := by
  rw [preFoodTable_eval N length x y hNL]
  split
  · exact toI8_le _
  · unfold wallsT
    split <;> omega

theorem init_food (N length : Nat) (lunch : Point) (hN : 3 ≤ N) (hL : length ≤ 127)
    (hNL : length + 2 ≤ N) (hlunch : LunchOk N (preFoodTable N length) lunch) :
    FoodOk (mkBoard N length lunch) := by
  obtain ⟨hl1, hl2, hl3, hl4, hl5⟩ := hlunch
  refine ⟨lunch, by omega, by omega, ?_, hl1, hl2, hl3, hl4, ?_⟩
  · show create_table N length lunch lunch.x lunch.y = -2
    unfold create_table
    exact upd_self _ _ _
  · intro a ha y hy hv
    by_cases hcl : a = lunch.x ∧ y = lunch.y
    · exact hcl
    · exfalso
      have hv2 : create_table N length lunch a y = -2 := hv
      unfold create_table at hv2
      rw [upd_of_ne _ _ _ _ _ hcl] at hv2
      rw [preFoodTable_eval N length a y hNL] at hv2
      by_cases hbody : a = (N - 1) / 2 ∧ cLo N length ≤ y ∧ y ≤ cHi N length
          ∧ 1 ≤ length
      · rw [if_pos hbody] at hv2
        obtain ⟨hb1, hb2, hb3, hb4⟩ := hbody
        have hge := cHi_ge N length hNL hb4
        have hvle : cHi N length + 1 - y ≤ length := by
          unfold cLo at hb2
          omega
        rw [toI8_of_le _ (by omega)] at hv2
        omega
      · rw [if_neg hbody] at hv2
        unfold wallsT at hv2
        split at hv2 <;> omega

theorem init_zero (N length : Nat) (lunch : Point) (hN : 3 ≤ N)
    (hNL : length + 2 ≤ N) (hlunch : LunchOk N (preFoodTable N length) lunch) :
    (mkBoard N length lunch).game_table 0 0 = -1 := by
  obtain ⟨hl1, hl2, hl3, hl4, hl5⟩ := hlunch
  show create_table N length lunch 0 0 = -1
  unfold create_table
  rw [upd_of_ne _ _ _ _ _ (by omega)]
  rw [preFoodTable_eval N length 0 0 hNL]
  rw [if_neg (by
    intro hc
    have := half_interior N hN
    omega)]
  unfold wallsT
  rw [if_pos (Or.inl rfl)]

theorem init_ring (N length : Nat) (lunch : Point) (hN : 3 ≤ N)
    (hNL : length + 2 ≤ N) (hlunch : LunchOk N (preFoodTable N length) lunch)
    (hint : 1 ≤ cLo N length) : RingOk (mkBoard N length lunch) := by
  obtain ⟨hl1, hl2, hl3, hl4, hl5⟩ := hlunch
  intro a ha y hy hr
  show create_table N length lunch a y = -1
  unfold create_table
  rw [upd_of_ne _ _ _ _ _ (by
    intro hc
    obtain ⟨h1, h2⟩ := hc
    subst h1; subst h2
    omega)]
  rw [preFoodTable_eval N length a y hNL]
  rw [if_neg (by
    intro hc
    obtain ⟨hb1, hb2, hb3, hb4⟩ := hc
    have := half_interior N hN
    have := cHi_lt N length hNL
    omega)]
  unfold wallsT
  rw [if_pos hr]

theorem init_interior (N length : Nat) (hN : 3 ≤ N) (hNL : length + 2 ≤ N)
    (hint : 1 ≤ cLo N length) : InteriorS N (initSnake N length) := by
  intro p hp
  unfold initSnake at hp
  obtain ⟨j, hj, he⟩ := List.mem_map.mp hp
  rw [← he]
  have := half_interior N hN
  have := cHi_lt N length hNL
  have hclo : cLo N length = cHi N length + 1 - length := rfl
  have hjr := List.mem_range.mp hj
  refine ⟨?_, ?_, ?_, ?_⟩
  · show 1 ≤ (N - 1) / 2
    omega
  · show (N - 1) / 2 ≤ N - 2
    omega
  · show 1 ≤ cHi N length - j
    omega
  · show cHi N length - j ≤ N - 2
    omega

/-! ## Reachable states -/

/-- Whether the tick described by the scan output is a growth tick (the
head target holds food). -/
def walkEats {N : Nat} (b : Board N) : Bool :=
  match walkScan b with
  | some (t, _, hd) => if hd.x < N ∧ hd.y < N ∧ t hd.x hd.y = -2 then true else false
  | none => false

/-- The grid at the moment `find_lunch_point` is called inside a growth tick
(scan done, tail rewritten, new head written). -/
def postGrowthTable {N : Nat} (b : Board N) : Table :=
  match walkScan b with
  | some (t, tl, hd) => upd (upd t tl (toI8 ((b.length + 1) % 256))) hd 1
  | none => b.game_table

/-- Validity of the oracle choice for a `walk` call: if the tick eats, the
chosen point must be one `find_lunch_point` could return — an empty interior
cell of the grid it samples. -/
def LunchCond {N : Nat} (b : Board N) (lunch : Point) : Prop :=
  walkEats b = true → LunchOk N (postGrowthTable b) lunch

instance {N : Nat} (b : Board N) (lunch : Point) : Decidable (LunchCond b lunch) := by
  unfold LunchCond
  infer_instance

theorem walkEats_eq {N : Nat} (b : Board N) (t : Table) (tl hd : Point)
    (hscan : walkScan b = some (t, tl, hd)) (hx : hd.x < N) (hy : hd.y < N)
    (hv : t hd.x hd.y = -2) : walkEats b = true := by
  unfold walkEats
  rw [hscan]
  dsimp only
  rw [if_pos ⟨hx, hy, hv⟩]

theorem postGrowthTable_eq {N : Nat} (b : Board N) (t : Table) (tl hd : Point)
    (hscan : walkScan b = some (t, tl, hd)) :
    postGrowthTable b = upd (upd t tl (toI8 ((b.length + 1) % 256))) hd 1 := by
  unfold postGrowthTable
  rw [hscan]

/-- States reachable through `new` and any number of `rotation` calls and
*successful* `walk` ticks, all keeping `length ≤ 127` (the range in which
`u8`/`i8` arithmetic in the engine is exact). -/
inductive ReachableCapped (N : Nat) : Board N → Prop where
  | init (length : Nat) (lunch : Point) (hlen : length ≤ 127)
      (hsz : length + 2 ≤ N)
      (hlunch : LunchOk N (preFoodTable N length) lunch) :
      ReachableCapped N (mkBoard N length lunch)
  | rot (b : Board N) (d : Direction) (h : ReachableCapped N b) :
      ReachableCapped N (rotation b d)
  | walkT (b b' : Board N) (lunch : Point) (h : ReachableCapped N b)
      (hl : LunchCond b lunch) (hw : walk b lunch = some (true, b'))
      (hcap : b'.length ≤ 127) : ReachableCapped N b'

/-- States reachable through `new` (with the initial body fully interior),
`rotation`, and `walk` ticks of either outcome, keeping `length ≤ 127`. -/
inductive ReachFull (N : Nat) : Board N → Prop where
  | init (length : Nat) (lunch : Point) (hlen : length ≤ 127)
      (hsz : length + 2 ≤ N)
      (hlunch : LunchOk N (preFoodTable N length) lunch)
      (hint : 1 ≤ cLo N length) : ReachFull N (mkBoard N length lunch)
  | rot (b : Board N) (d : Direction) (h : ReachFull N b) :
      ReachFull N (rotation b d)
  | walkStep (b b' : Board N) (r : Bool) (lunch : Point) (h : ReachFull N b)
      (hl : LunchCond b lunch) (hw : walk b lunch = some (r, b'))
      (hcap : b'.length ≤ 127) : ReachFull N b'

theorem collide_food {N : Nat} (b : Board N) (hlen : b.length ≤ 127)
    (hb : ∀ a, a < N → ∀ y, y < N →
      0 < b.game_table a y → b.game_table a y ≤ (b.length : Int))
    (hfood : FoodOk b) : FoodOk (collideBoard b) := by
  obtain ⟨pF, hFx, hFy, hFv, hFi1, hFi2, hFi3, hFi4, hFu⟩ := hfood
  refine ⟨pF, hFx, hFy, ?_, hFi1, hFi2, hFi3, hFi4, ?_⟩
  · show scanTable N b.length b.game_table pF.x pF.y = -2
    exact (scanTable_eq_neg_iff N b.length b.game_table hlen hb pF.x pF.y (-2)
      (by omega)).mpr hFv
  · intro a ha y hy hv
    exact hFu a ha y hy
      ((scanTable_eq_neg_iff N b.length b.game_table hlen hb a y (-2) (by omega)).mp hv)

theorem collide_rep0 {N : Nat} (b : Board N) (s : List Point)
    (hrep : SnakeRep b s) (hlen : b.length ≤ 127) (h0 : b.length = 0) :
    SnakeRep (collideBoard b) s := by
  obtain ⟨hl, hval, hmem, hadj, hgrid⟩ := hrep
  have hrep2 : SnakeRep b s := ⟨hl, hval, hmem, hadj, hgrid⟩
  refine ⟨hl, ?_, ?_, ?_, hgrid⟩
  · intro i hi
    omega
  · intro a ha y hy hpos
    have hpos2 : 0 < scanTable N b.length b.game_table a y := hpos
    exact hmem a ha y hy
      (scanTable_pos N b.length b.game_table hlen (snake_bound hrep2) a y ha hy hpos2)
  · intro i hi
    omega

/-! ## The master invariants -/

theorem reachCapped_inv {N : Nat} (b : Board N) (h : ReachableCapped N b) :
    3 ≤ N ∧ b.length ≤ 127 ∧ b.game_table 0 0 = -1
      ∧ ∃ s, SnakeRep b s ∧ FoodOk b := by
  induction h with
  | init L lunch hlen hsz hlunch =>
    have hN : 3 ≤ N := by
      obtain ⟨h1, h2, -⟩ := hlunch
      omega
    exact ⟨hN, hlen, init_zero N L lunch hN hsz hlunch,
      initSnake N L, init_rep N L lunch hN hlen hsz hlunch,
      init_food N L lunch hN hlen hsz hlunch⟩
  | rot b d hb ih =>
    obtain ⟨hN, hlen, hzero, s, hrep, hfood⟩ := ih
    exact ⟨hN, hlen, hzero, s, hrep, hfood⟩
  | walkT b b' lunch hb hl hw hcap ih =>
    obtain ⟨hN, hlen, hzero, s, hrep, hfood⟩ := ih
    rcases Nat.lt_or_ge b.length 2 with h1 | h2
    · exfalso
      have hshort := snake_walk_short b s lunch hN hlen (by omega) hrep hzero
      rw [hw] at hshort
      simp at hshort
    · cases hsd : stepDir b.direction (s.getD 0 ⟨0, 0⟩) with
      | none =>
        exfalso
        have hpanic := snake_walk_panic b s lunch hN hlen h2 hrep hsd
        rw [hw] at hpanic
        simp at hpanic
      | some q =>
        by_cases hqin : q.x < N ∧ q.y < N
        · have heval := snake_walk_eval b s q lunch hN hlen h2 hrep hsd hqin.1 hqin.2
          rw [hw] at heval
          have hadjq := stepDir_adjacent b.direction _ q hsd
          by_cases hfoodtgt : scanTable N b.length b.game_table q.x q.y = -2
          · rw [if_pos hfoodtgt] at heval
            simp only [Option.some.injEq, Prod.mk.injEq, true_and] at heval
            subst heval
            have hglen : (growBoard b (s.getD (b.length - 1) ⟨0, 0⟩) q lunch).length
                = (b.length + 1) % 256 := rfl
            have h126 : b.length ≤ 126 := by omega
            have hscan := walkScan_some_head b (some (s.getD (b.length - 1) ⟨0, 0⟩))
              (s.getD 0 ⟨0, 0⟩) q hN hlen (snake_bound hrep)
              (snake_tailSpec hrep hlen (by omega)) (snake_headSpec hrep h2) hsd
            rw [Option.getD_some] at hscan
            have heats := walkEats_eq b _ _ q hscan hqin.1 hqin.2 hfoodtgt
            have hlunchOk := hl heats
            rw [postGrowthTable_eq b _ _ q hscan] at hlunchOk
            exact ⟨hN, hcap,
              grow_zero b s q lunch hN hlen h2 hrep hqin.1 hqin.2 hfoodtgt hlunchOk hzero,
              q :: s,
              snake_grow_rep b s q lunch hN h126 h2 hrep hadjq hqin.1 hqin.2 hfoodtgt hlunchOk,
              grow_food b s q lunch hN hlen h2 hrep hqin.1 hqin.2 hfoodtgt hlunchOk hfood⟩
          · by_cases hzerotgt : scanTable N b.length b.game_table q.x q.y = 0
            · rw [if_neg hfoodtgt, if_pos hzerotgt] at heval
              simp only [Option.some.injEq, Prod.mk.injEq, true_and] at heval
              subst heval
              exact ⟨hN, hcap,
                move_zero b s q hN hlen h2 hrep hqin.1 hqin.2 hzerotgt hzero,
                q :: s.dropLast,
                snake_move_rep b s q hN hlen h2 hrep hadjq hqin.1 hqin.2 hzerotgt,
                move_food b s q hN hlen h2 hrep hqin.1 hqin.2 hzerotgt hfood⟩
            · exfalso
              rw [if_neg hfoodtgt, if_neg hzerotgt] at heval
              simp at heval
        · exfalso
          have hoob := snake_walk_oob b s q lunch hN hlen h2 hrep hsd hqin
          rw [hw] at hoob
          simp at hoob

theorem reachFull_inv {N : Nat} (b : Board N) (h : ReachFull N b) :
    3 ≤ N ∧ b.length ≤ 127 ∧ RingOk b
      ∧ ((∃ s, SnakeRep b s ∧ FoodOk b ∧ InteriorS N s)
          ∨ (∃ k s, DeadRep b k s)) := by
  induction h with
  | init L lunch hlen hsz hlunch hint =>
    have hN : 3 ≤ N := by
      obtain ⟨h1, h2, -⟩ := hlunch
      omega
    exact ⟨hN, hlen, init_ring N L lunch hN hsz hlunch hint,
      Or.inl ⟨initSnake N L, init_rep N L lunch hN hlen hsz hlunch,
        init_food N L lunch hN hlen hsz hlunch, init_interior N L hN hsz hint⟩⟩
  | rot b d hb ih =>
    obtain ⟨hN, hlen, hring, hbranch⟩ := ih
    exact ⟨hN, hlen, hring, hbranch⟩
  | walkStep b b' r lunch hb hl hw hcap ih =>
    obtain ⟨hN, hlen, hring, hbranch⟩ := ih
    have hzero : b.game_table 0 0 = -1 := hring 0 (by omega) 0 (by omega) (Or.inl rfl)
    rcases hbranch with ⟨s, hrep, hfood, hint⟩ | ⟨k, s, hdead⟩
    · rcases Nat.lt_or_ge b.length 1 with h0 | h1
      · -- empty snake: the tick changes nothing observable
        have hshort := snake_walk_short b s lunch hN hlen (by omega) hrep hzero
        rw [hw] at hshort
        simp only [Option.some.injEq, Prod.mk.injEq] at hshort
        obtain ⟨-, hb'⟩ := hshort
        subst hb'
        exact ⟨hN, hcap, collide_ring b hring,
          Or.inl ⟨s, collide_rep0 b s hrep hlen (by omega),
            collide_food b hlen (snake_bound hrep) hfood, hint⟩⟩
      · rcases Nat.lt_or_ge b.length 2 with h1' | h2
        · -- single-segment snake: erased by the tick, state goes dead
          have hshort := snake_walk_short b s lunch hN hlen (by omega) hrep hzero
          rw [hw] at hshort
          simp only [Option.some.injEq, Prod.mk.injEq] at hshort
          obtain ⟨-, hb'⟩ := hshort
          subst hb'
          exact ⟨hN, hcap, collide_ring b hring,
            Or.inr ⟨2, s.dropLast, snake_collide_dead b s hN hlen h1 hrep⟩⟩
        · cases hsd : stepDir b.direction (s.getD 0 ⟨0, 0⟩) with
          | none =>
            exfalso
            have hpanic := snake_walk_panic b s lunch hN hlen h2 hrep hsd
            rw [hw] at hpanic
            simp at hpanic
          | some q =>
            by_cases hqin : q.x < N ∧ q.y < N
            · have heval := snake_walk_eval b s q lunch hN hlen h2 hrep hsd hqin.1 hqin.2
              rw [hw] at heval
              have hadjq := stepDir_adjacent b.direction _ q hsd
              by_cases hfoodtgt : scanTable N b.length b.game_table q.x q.y = -2
              · rw [if_pos hfoodtgt] at heval
                simp only [Option.some.injEq, Prod.mk.injEq] at heval
                obtain ⟨-, hb'⟩ := heval
                subst hb'
                have hglen : (growBoard b (s.getD (b.length - 1) ⟨0, 0⟩) q lunch).length
                    = (b.length + 1) % 256 := rfl
                have h126 : b.length ≤ 126 := by omega
                have hscan := walkScan_some_head b (some (s.getD (b.length - 1) ⟨0, 0⟩))
                  (s.getD 0 ⟨0, 0⟩) q hN hlen (snake_bound hrep)
                  (snake_tailSpec hrep hlen (by omega)) (snake_headSpec hrep h2) hsd
                rw [Option.getD_some] at hscan
                have heats := walkEats_eq b _ _ q hscan hqin.1 hqin.2 hfoodtgt
                have hlunchOk := hl heats
                rw [postGrowthTable_eq b _ _ q hscan] at hlunchOk
                have hgr := grow_ring b s q lunch hN hlen h2 hrep hqin.1 hqin.2
                  hfoodtgt hlunchOk hring hint
                exact ⟨hN, hcap, hgr.1,
                  Or.inl ⟨q :: s,
                    snake_grow_rep b s q lunch hN h126 h2 hrep hadjq hqin.1 hqin.2
                      hfoodtgt hlunchOk,
                    grow_food b s q lunch hN hlen h2 hrep hqin.1 hqin.2
                      hfoodtgt hlunchOk hfood, hgr.2⟩⟩
              · by_cases hzerotgt : scanTable N b.length b.game_table q.x q.y = 0
                · rw [if_neg hfoodtgt, if_pos hzerotgt] at heval
                  simp only [Option.some.injEq, Prod.mk.injEq] at heval
                  obtain ⟨-, hb'⟩ := heval
                  subst hb'
                  have hmr := move_ring b s q hN hlen h2 hrep hqin.1 hqin.2
                    hzerotgt hring hint
                  exact ⟨hN, hcap, hmr.1,
                    Or.inl ⟨q :: s.dropLast,
                      snake_move_rep b s q hN hlen h2 hrep hadjq hqin.1 hqin.2 hzerotgt,
                      move_food b s q hN hlen h2 hrep hqin.1 hqin.2 hzerotgt hfood,
                      hmr.2⟩⟩
                · rw [if_neg hfoodtgt, if_neg hzerotgt] at heval
                  simp only [Option.some.injEq, Prod.mk.injEq] at heval
                  obtain ⟨-, hb'⟩ := heval
                  subst hb'
                  exact ⟨hN, hcap, collide_ring b hring,
                    Or.inr ⟨2, s.dropLast, snake_collide_dead b s hN hlen (by omega) hrep⟩⟩
            · exfalso
              have hoob := snake_walk_oob b s q lunch hN hlen h2 hrep hsd hqin
              rw [hw] at hoob
              simp at hoob
    · -- dead state: the tick returns false and shifts the remaining values
      have hdw := dead_walk b k s lunch hN hlen hdead hring
      rw [hw] at hdw
      obtain ⟨heq, hdead'⟩ := hdw
      simp only [Option.some.injEq, Prod.mk.injEq] at heq
      obtain ⟨-, hb'⟩ := heq
      subst hb'
      exact ⟨hN, hcap, collide_ring b hring, Or.inr ⟨k + 1, s.dropLast, hdead'⟩⟩

/-! ## The claims -/

set_option maxRecDepth 4000

/-- Boolean check that a grid has no positive cell. -/
def noPos (N : Nat) (t : Table) : Bool :=
  (List.range N).all (fun x => (List.range N).all (fun y => decide (t x y ≤ 0)))

/-- C8: whenever `walk` returns `false` (collision), the `length` and `score`
fields are unchanged — the collision branch of the final match writes only the
scanned grid back. -/
theorem C8_collision_frame {N : Nat} (b : Board N) (lunch : Point) (b' : Board N)
    (hw : walk b lunch = some (false, b')) :
    b'.length = b.length ∧ b'.score = b.score := by
  cases hscan : walkScan b with
  | none =>
    rw [walk_of_scan_panic b lunch hscan] at hw
    exact absurd hw (by simp)
  | some ttl =>
    obtain ⟨t, tl, hd⟩ := ttl
    by_cases hin : hd.x < N ∧ hd.y < N
    · rw [walk_of_scan b lunch t tl hd hscan hin.1 hin.2] at hw
      by_cases h2 : t hd.x hd.y = -2
      · rw [if_pos h2] at hw
        simp at hw
      · rw [if_neg h2] at hw
        by_cases h0 : t hd.x hd.y = 0
        · rw [if_pos h0] at hw
          simp at hw
        · rw [if_neg h0] at hw
          simp only [Option.some.injEq, Prod.mk.injEq, true_and] at hw
          rw [← hw]
          exact ⟨rfl, rfl⟩
    · rw [walk_of_scan_oob b lunch t tl hd hscan hin] at hw
      exact absurd hw (by simp)

/-- Witness for C8: the length-1 board on a 4×4 grid makes `walk` return
`false`; length and score are unchanged. -/
theorem C8_witness :
    ∃ b' : Board 4, walk (mkBoard 4 1 ⟨2, 2⟩) ⟨2, 2⟩ = some (false, b')
      ∧ b'.length = (mkBoard 4 1 ⟨2, 2⟩).length
      ∧ b'.score = (mkBoard 4 1 ⟨2, 2⟩).score := by
  have hfst : (walk (mkBoard 4 1 ⟨2, 2⟩) ⟨2, 2⟩).map (fun r => r.1) = some false := by
    decide
  cases hw : walk (mkBoard 4 1 ⟨2, 2⟩) ⟨2, 2⟩ with
  | none =>
    rw [hw] at hfst
    exact absurd hfst (by simp)
  | some rb =>
    obtain ⟨r, b'⟩ := rb
    rw [hw] at hfst
    simp only [Option.map_some', Option.some.injEq] at hfst
    subst hfst
    exact ⟨b', rfl, (C8_collision_frame _ _ _ hw).1, (C8_collision_frame _ _ _ hw).2⟩

/-- C4: `new(3)` on a 10×10 grid places the head (the unique value-1 cell) at
`(4,5)` — row `(10-1)/2 = 4`, the code's centre row, with the head at the
column just right of the centre column 4, one of the central cells of the
even-sized grid — the body extends left from there (`(4,4) = 2`,
`(4,3) = 3`, and no other cell is positive), the direction is `Right` and the
score is 0.  The food oracle point `(1,1)` is a valid `find_lunch_point`
result. -/
theorem C4_new3_layout :
    new 10 3 ⟨1, 1⟩ = .ok (mkBoard 10 3 ⟨1, 1⟩)
    ∧ LunchOk 10 (preFoodTable 10 3) ⟨1, 1⟩
    ∧ (mkBoard 10 3 ⟨1, 1⟩).direction = Direction.Right
    ∧ (mkBoard 10 3 ⟨1, 1⟩).score = 0
    ∧ (mkBoard 10 3 ⟨1, 1⟩).length = 3
    ∧ (10 - 1) / 2 = 4
    ∧ (mkBoard 10 3 ⟨1, 1⟩).game_table 4 5 = 1
    ∧ (mkBoard 10 3 ⟨1, 1⟩).game_table 4 4 = 2
    ∧ (mkBoard 10 3 ⟨1, 1⟩).game_table 4 3 = 3
    ∧ (∀ x, x < 10 → ∀ y, y < 10 → 0 < (mkBoard 10 3 ⟨1, 1⟩).game_table x y →
        x = 4 ∧ 3 ≤ y ∧ y ≤ 5) := by
  refine ⟨new_ok 10 3 ⟨1, 1⟩ (by norm_num), ?_⟩
  decide

/-- C3: the failing input for the length-1 scenario.  A snake of length 1 on
a 4×4 grid, direction `Right`, target cell `(1,2)` empty: the single body
cell at `(1,1)` equals `length`, so the scan clears it as the tail and head
detection never fires; `walk` probes the default `head_point = (0,0)` (a wall)
and returns `false`, leaving the grid with no positive cell — the snake is
erased instead of moving to `(1,2)` as the spec requires. -/
theorem C3_len1_erased :
    new 4 1 ⟨2, 2⟩ = .ok (mkBoard 4 1 ⟨2, 2⟩)
    ∧ LunchOk 4 (preFoodTable 4 1) ⟨2, 2⟩
    ∧ (mkBoard 4 1 ⟨2, 2⟩).direction = Direction.Right
    ∧ (mkBoard 4 1 ⟨2, 2⟩).game_table 1 1 = 1
    ∧ (mkBoard 4 1 ⟨2, 2⟩).game_table 1 2 = 0
    ∧ (walk (mkBoard 4 1 ⟨2, 2⟩) ⟨2, 2⟩).map (fun r => r.1) = some false
    ∧ (walk (mkBoard 4 1 ⟨2, 2⟩) ⟨2, 2⟩).map (fun r => noPos 4 r.2.game_table)
        = some true := by
  refine ⟨new_ok 4 1 ⟨2, 2⟩ (by norm_num), ?_⟩
  decide

/-- Counterexample for C2: a snake of length 2 on a 5×5 grid whose direction
is turned onto its own second segment.  The target cell `(2,1)` holds the
positive body value 2 before the scan, yet `walk` returns `true`: the cell
equals `length`, so the scan clears it as the vacating tail, and the
post-scan resolution finds `0` there. -/
theorem C2_counterexample :
    new 5 2 ⟨1, 1⟩ = .ok (mkBoard 5 2 ⟨1, 1⟩)
    ∧ LunchOk 5 (preFoodTable 5 2) ⟨1, 1⟩
    ∧ (rotation (mkBoard 5 2 ⟨1, 1⟩) Direction.Left).game_table 2 2 = 1
    ∧ (rotation (mkBoard 5 2 ⟨1, 1⟩) Direction.Left).game_table 2 1 = 2
    ∧ (0 : Int) < 2
    ∧ (walk (rotation (mkBoard 5 2 ⟨1, 1⟩) Direction.Left) ⟨1, 1⟩).map (fun r => r.1)
        = some true := by
  refine ⟨new_ok 5 2 ⟨1, 1⟩ (by norm_num), ?_⟩
  decide

/-- Counterexample for C9: `new(2)` on a 4×4 grid is accepted
(`2 + 2 ≤ 4`), but the even-length centering rule places the tail of the
initial body on the boundary cell `(1,0)`: a cell painted `-1` during
construction holds the body value `2` already in the freshly constructed
engine (the empty sequence of `walk`/`rotation` calls). -/
theorem C9_counterexample :
    2 + 2 ≤ 4
    ∧ new 4 2 ⟨2, 2⟩ = .ok (mkBoard 4 2 ⟨2, 2⟩)
    ∧ LunchOk 4 (preFoodTable 4 2) ⟨2, 2⟩
    ∧ wallsT 4 1 0 = -1
    ∧ (mkBoard 4 2 ⟨2, 2⟩).game_table 1 0 = 2 := by
  refine ⟨by norm_num, new_ok 4 2 ⟨2, 2⟩ (by norm_num), ?_⟩
  decide

/-- Counterexample for C10: from `new(2)` on a 4×4 grid (a successful `new`,
refuting the claim's premise that all positive cells then lie in the
interior: the tail starts at `(1,0)`, column 0), one legal `walk` moves the
head onto the vacated tail cell `(1,0)`; the next `walk` computes
`y - 1` with `y = 0` for direction `Left` — the `usize` decrement underflows
and the program panics (`none`). -/
theorem C10_counterexample :
    new 4 2 ⟨2, 2⟩ = .ok (mkBoard 4 2 ⟨2, 2⟩)
    ∧ LunchOk 4 (preFoodTable 4 2) ⟨2, 2⟩
    ∧ (mkBoard 4 2 ⟨2, 2⟩).game_table 1 0 = 2
    ∧ LunchCond (rotation (mkBoard 4 2 ⟨2, 2⟩) Direction.Left) ⟨2, 2⟩
    ∧ (walk (rotation (mkBoard 4 2 ⟨2, 2⟩) Direction.Left) ⟨2, 2⟩).map (fun r => r.1)
        = some true
    ∧ ((walk (rotation (mkBoard 4 2 ⟨2, 2⟩) Direction.Left) ⟨2, 2⟩).bind
        (fun r => walk r.2 ⟨2, 2⟩)) = none := by
  refine ⟨new_ok 4 2 ⟨2, 2⟩ (by norm_num), by decide, by decide, by decide, by decide, rfl⟩

/-- Counterexample for C6: `(length, size) = (1, 3)` satisfies
`size ≥ length + 2`, but after the body is placed the single interior cell
`(1,1)` of the 3×3 grid holds the snake, so no cell satisfies the
`find_lunch_point` sampling condition: the rejection-sampling loop inside
`create_table` never terminates and construction does not succeed. -/
theorem C6_counterexample :
    1 + 2 ≤ 3 ∧ ¬∃ p : Point, LunchOk 3 (preFoodTable 3 1) p := by
  refine ⟨by norm_num, ?_⟩
  rintro ⟨p, h1, h2, h3, h4, h5⟩
  have hx : p.x = 1 := by omega
  have hy : p.y = 1 := by omega
  rw [hx, hy] at h5
  have hv : preFoodTable 3 1 1 1 = 1 := by decide
  rw [hv] at h5
  exact absurd h5 (by norm_num)

/-- Counterexample for C1: `new(128)` on a 131×131 grid is a valid
construction (`128 + 2 ≤ 131`) and the oracle food point `(1,1)` is legal,
but already after the empty sequence of `walk` calls the multiset of positive
cell values is not `{1, …, 128}`: no cell at all holds the value 128, because
the body value `(j+1) as i8` wraps to `-128` for the 128th segment. -/
theorem C1_counterexample :
    128 + 2 ≤ 131
    ∧ LunchOk 131 (preFoodTable 131 128) ⟨1, 1⟩
    ∧ new 131 128 ⟨1, 1⟩ = .ok (mkBoard 131 128 ⟨1, 1⟩)
    ∧ (mkBoard 131 128 ⟨1, 1⟩).length = 128
    ∧ ∀ x, x < 131 → ∀ y, y < 131 →
        (mkBoard 131 128 ⟨1, 1⟩).game_table x y ≠ 128 := by
  refine ⟨by norm_num, by decide, new_ok 131 128 ⟨1, 1⟩ (by norm_num), rfl, ?_⟩
  intro x hx y hy
  show create_table 131 128 ⟨1, 1⟩ x y ≠ 128
  unfold create_table
  by_cases hc : x = (⟨1, 1⟩ : Point).x ∧ y = (⟨1, 1⟩ : Point).y
  · rw [hc.1, hc.2, upd_self]
    norm_num
  · rw [upd_of_ne _ _ _ _ _ hc]
    have := preFoodTable_le 131 128 (by norm_num) x y
    omega

/-- Counterexample for C7: `new(255)` on a 257×257 grid is a valid
construction and reachable, yet the body-placement loop writes
`(j+1) as i8` for `j+1 = 255` and `254`, so the 255th body segment (cell
`(128,1)`) holds the wall sentinel `-1` and the 254th (cell `(128,2)`) holds
the food sentinel `-2`: snake body cells take the sentinel values, and the
body values are neither positive nor bounded by `length`.  (`(128,1)` and
`(128,2)` are body cells: the body occupies columns `cLo = 1 … cHi = 255` of
row `(257-1)/2 = 128`.) -/
theorem C7_counterexample :
    255 + 2 ≤ 257
    ∧ LunchOk 257 (preFoodTable 257 255) ⟨1, 1⟩
    ∧ new 257 255 ⟨1, 1⟩ = .ok (mkBoard 257 255 ⟨1, 1⟩)
    ∧ cLo 257 255 = 1 ∧ cHi 257 255 = 255 ∧ (257 - 1) / 2 = 128
    ∧ (mkBoard 257 255 ⟨1, 1⟩).game_table 128 1 = -1
    ∧ (mkBoard 257 255 ⟨1, 1⟩).game_table 128 2 = -2 := by
  refine ⟨by norm_num, by decide, new_ok 257 255 ⟨1, 1⟩ (by norm_num), ?_⟩
  decide

/-- C2 (amended): the target cell is resolved against the *post-scan* grid.
If the pre-scan target held the wall value `-1` or a positive body value
*strictly below* `length`, `walk` returns `false`; but if it held exactly
`length` — the (positive) tail value, the length-2 reversal case among
others — the scan clears it before resolution and `walk` returns `true`. -/
theorem C2_resolution {N : Nat} (b : Board N) (s : List Point) (q lunch : Point)
    (hN : 3 ≤ N) (hlen : b.length ≤ 127) (h2 : 2 ≤ b.length) (hrep : SnakeRep b s)
    (hsd : stepDir b.direction (s.getD 0 ⟨0, 0⟩) = some q)
    (hqx : q.x < N) (hqy : q.y < N) :
    ((b.game_table q.x q.y = -1
        ∨ (0 < b.game_table q.x q.y ∧ b.game_table q.x q.y < (b.length : Int))) →
      (walk b lunch).map (fun r => r.1) = some false)
    ∧ (b.game_table q.x q.y = (b.length : Int) →
      (walk b lunch).map (fun r => r.1) = some true) := by
  have heval := snake_walk_eval b s q lunch hN hlen h2 hrep hsd hqx hqy
  have hb := snake_bound hrep
  constructor
  · intro hc
    have hst : scanTable N b.length b.game_table q.x q.y ≠ -2
        ∧ scanTable N b.length b.game_table q.x q.y ≠ 0 := by
      unfold scanTable
      rw [if_pos ⟨hqx, hqy⟩]
      rcases hc with hc | ⟨hc1, hc2⟩
      · rw [cellRule_nonpos _ _ (by omega), hc]
        constructor <;> norm_num
      · rcases cellRule_classify b.length (b.game_table q.x q.y) hlen
          (hb q.x hqx q.y hqy) with ⟨h1, h3⟩ | ⟨h1, h3, h4⟩ | ⟨h1, h3, h4⟩
        · omega
        · omega
        · rw [h4]
          omega
    rw [heval, if_neg hst.1, if_neg hst.2]
    rfl
  · intro hc
    have hst : scanTable N b.length b.game_table q.x q.y = 0 := by
      unfold scanTable
      rw [if_pos ⟨hqx, hqy⟩, hc]
      exact cellRule_tail _ _ (by omega) (toI8_of_le _ hlen).symm
    rw [heval, if_neg (by rw [hst]; omega), if_pos hst]
    rfl

/-- Witness for C2: the length-2 snake on a 5×5 grid, turned `Left` onto its
own second segment (the tail, pre-scan value `2 = length`), walks `true`. -/
theorem C2_resolution_witness :
    (walk (rotation (mkBoard 5 2 ⟨1, 1⟩) Direction.Left) ⟨1, 1⟩).map (fun r => r.1)
      = some true :=
  (C2_resolution (rotation (mkBoard 5 2 ⟨1, 1⟩) Direction.Left)
    [⟨2, 2⟩, ⟨2, 1⟩] ⟨2, 1⟩ ⟨1, 1⟩ (by norm_num) (by decide) (by decide)
    (by decide) rfl (by decide) (by decide)).2 (by decide)

/-- C1 (amended): for every state reached through `new` and `rotation`/`walk`
calls that keep `length ≤ 127` (successful ticks only), the positive cells
are exactly the cells of a list `s` of `length` pairwise-distinct points,
cell `i` holding value `i+1` (so the positive values are exactly
`{1, …, length}`, once each) and consecutive cells being grid-adjacent. -/
theorem C1_invariant {N : Nat} (b : Board N) (h : ReachableCapped N b) :
    ∃ s : List Point, s.length = b.length
      ∧ (∀ i, i < s.length →
          b.game_table (s.getD i ⟨0, 0⟩).x (s.getD i ⟨0, 0⟩).y = (i : Int) + 1)
      ∧ (∀ i j, i < s.length → j < s.length →
          s.getD i ⟨0, 0⟩ = s.getD j ⟨0, 0⟩ → i = j)
      ∧ (∀ a, a < N → ∀ y, y < N → 0 < b.game_table a y →
          ∃ i, i < s.length ∧ s.getD i ⟨0, 0⟩ = (⟨a, y⟩ : Point))
      ∧ (∀ i, i < s.length - 1 → Adjacent (s.getD i ⟨0, 0⟩) (s.getD (i + 1) ⟨0, 0⟩)) := by
  obtain ⟨hN, hlen, hzero, s, hrep, hfood⟩ := reachCapped_inv b h
  obtain ⟨hl, hval, hmem, hadj, hgrid⟩ := hrep
  refine ⟨s, hl, hval, ?_, ?_, hadj⟩
  · intro i j hi hj he
    exact snake_idx_inj ⟨hl, hval, hmem, hadj, hgrid⟩ hi hj he
  · intro a ha y hy hpos
    exact snake_mem_getD (hmem a ha y hy hpos)

/-- Witness for C1: the freshly constructed length-1 board on a 5×5 grid. -/
theorem C1_witness :
    ∃ s : List Point, s.length = (mkBoard 5 1 ⟨1, 1⟩).length
      ∧ (∀ i, i < s.length →
          (mkBoard 5 1 ⟨1, 1⟩).game_table (s.getD i ⟨0, 0⟩).x (s.getD i ⟨0, 0⟩).y
            = (i : Int) + 1)
      ∧ (∀ i j, i < s.length → j < s.length →
          s.getD i ⟨0, 0⟩ = s.getD j ⟨0, 0⟩ → i = j)
      ∧ (∀ a, a < 5 → ∀ y, y < 5 → 0 < (mkBoard 5 1 ⟨1, 1⟩).game_table a y →
          ∃ i, i < s.length ∧ s.getD i ⟨0, 0⟩ = (⟨a, y⟩ : Point))
      ∧ (∀ i, i < s.length - 1 → Adjacent (s.getD i ⟨0, 0⟩) (s.getD (i + 1) ⟨0, 0⟩)) :=
  C1_invariant (mkBoard 5 1 ⟨1, 1⟩)
    (ReachableCapped.init 1 ⟨1, 1⟩ (by norm_num) (by norm_num) (by decide))

/-- C7 (amended): on every state reached with `length` capped at 127, the
snake body cells hold values that are positive, bounded by `length`, and in
particular never the sentinels `-1`/`-2`.  (Uncapped, the bound fails:
see the C7 counterexample.) -/
theorem C7_bounds {N : Nat} (b : Board N) (h : ReachableCapped N b) :
    ∃ s : List Point, SnakeRep b s
      ∧ ∀ p, p ∈ s →
          (1 : Int) ≤ b.game_table p.x p.y
          ∧ b.game_table p.x p.y ≤ (b.length : Int)
          ∧ b.game_table p.x p.y ≠ -1
          ∧ b.game_table p.x p.y ≠ -2 := by
  obtain ⟨hN, hlen, hzero, s, hrep, hfood⟩ := reachCapped_inv b h
  refine ⟨s, hrep, ?_⟩
  intro p hp
  obtain ⟨i, hi, he⟩ := snake_mem_getD hp
  obtain ⟨hl, hval, hmem, hadj, hgrid⟩ := hrep
  have hv := hval i hi
  rw [he] at hv
  rw [hv]
  exact ⟨by omega, by omega, by omega, by omega⟩

/-- Witness for C7: the freshly constructed length-2 board on a 6×6 grid. -/
theorem C7_witness :
    ∃ s : List Point, SnakeRep (mkBoard 6 2 ⟨1, 1⟩) s
      ∧ ∀ p, p ∈ s →
          (1 : Int) ≤ (mkBoard 6 2 ⟨1, 1⟩).game_table p.x p.y
          ∧ (mkBoard 6 2 ⟨1, 1⟩).game_table p.x p.y ≤ ((mkBoard 6 2 ⟨1, 1⟩).length : Int)
          ∧ (mkBoard 6 2 ⟨1, 1⟩).game_table p.x p.y ≠ -1
          ∧ (mkBoard 6 2 ⟨1, 1⟩).game_table p.x p.y ≠ -2 :=
  C7_bounds (mkBoard 6 2 ⟨1, 1⟩)
    (ReachableCapped.init 2 ⟨1, 1⟩ (by norm_num) (by norm_num) (by decide))

/-- C9 (amended): on every state whose construction placed the body fully in
the interior (`1 ≤ cLo`, which fails only for even `N` with
`length = N - 2`) with `length ≤ 127`, and which kept `length ≤ 127` after
every tick, every cell painted `-1` by the wall pass still holds `-1` after
any sequence of `rotation` and `walk` calls of either outcome.  Both
provisos are needed: without the cap, at `length ≥ 128` no positive cell
can equal `length as i8`, so the scan's tail test never fires and a growth
tick writes `(length + 1) as i8` over the default `tail_point = (0,0)` — a
wall cell. -/
theorem C9_walls {N : Nat} (b : Board N) (h : ReachFull N b) :
    ∀ a, a < N → ∀ y, y < N → wallsT N a y = -1 → b.game_table a y = -1 := by
  intro a ha y hy hw
  have hring := (reachFull_inv b h).2.2.1
  by_cases hc : a = 0 ∨ a = N - 1 ∨ y = 0 ∨ y = N - 1
  · exact hring a ha y hy hc
  · exfalso
    unfold wallsT at hw
    rw [if_neg hc] at hw
    exact absurd hw (by norm_num)

/-- Witness for C9: a wall cell of a freshly constructed 5×5 board. -/
theorem C9_witness : (mkBoard 5 1 ⟨1, 1⟩).game_table 0 2 = -1 :=
  C9_walls (mkBoard 5 1 ⟨1, 1⟩)
    (ReachFull.init 1 ⟨1, 1⟩ (by norm_num) (by norm_num) (by decide) (by decide))
    0 (by norm_num) 2 (by norm_num) rfl

/-- An interior point has a defined next-head position inside the grid, in
every direction. -/
theorem stepDir_some_bounds (N : Nat) (d : Direction) (p : Point) (hN : 3 ≤ N)
    (h1 : 1 ≤ p.x) (h2 : p.x ≤ N - 2) (h3 : 1 ≤ p.y) (h4 : p.y ≤ N - 2) :
    ∃ q, stepDir d p = some q ∧ q.x < N ∧ q.y < N := by
  cases d
  · refine ⟨⟨p.x - 1, p.y⟩, ?_, ?_, ?_⟩
    · unfold stepDir
      rw [if_neg (show ¬p.x = 0 by omega)]
    · show p.x - 1 < N
      omega
    · show p.y < N
      omega
  · refine ⟨⟨p.x + 1, p.y⟩, rfl, ?_, ?_⟩
    · show p.x + 1 < N
      omega
    · show p.y < N
      omega
  · refine ⟨⟨p.x, p.y - 1⟩, ?_, ?_, ?_⟩
    · unfold stepDir
      rw [if_neg (show ¬p.y = 0 by omega)]
    · show p.x < N
      omega
    · show p.y - 1 < N
      omega
  · refine ⟨⟨p.x, p.y + 1⟩, rfl, ?_, ?_⟩
    · show p.x < N
      omega
    · show p.y + 1 < N
      omega

/-- C10 (amended): on every state reachable, with `length ≤ 127` at
construction and after every tick, from a construction whose body is fully
interior (`1 ≤ cLo`; even `N` with `length = N - 2` is the excluded family,
where a body cell starts on column 0), `walk` never panics: whatever the
oracle food point, every index it computes is in bounds and the `usize`
decrements never underflow.  The cap is needed: a growth tick at
`length = 255` wraps `length` to 0 and corrupts the default tail cell
`(0,0)`, after which a head written on the wall ring makes the next `Up`
or `Left` tick underflow. -/
theorem C10_no_panic {N : Nat} (b : Board N) (h : ReachFull N b) (lunch : Point) :
    walk b lunch ≠ none := by
  obtain ⟨hN, hlen, hring, hbranch⟩ := reachFull_inv b h
  have hzero : b.game_table 0 0 = -1 := hring 0 (by omega) 0 (by omega) (Or.inl rfl)
  rcases hbranch with ⟨s, hrep, hfood, hint⟩ | ⟨k, s, hdead⟩
  · rcases Nat.lt_or_ge b.length 2 with h1 | h2
    · rw [snake_walk_short b s lunch hN hlen (by omega) hrep hzero]
      simp
    · have hhead : s.getD 0 ⟨0, 0⟩ ∈ s := by
        obtain ⟨hl, -, -, -, -⟩ := hrep
        exact snake_getD_mem (by omega)
      have hi := hint _ hhead
      obtain ⟨q, hsd, hqx, hqy⟩ := stepDir_some_bounds N b.direction _ hN
        hi.1 hi.2.1 hi.2.2.1 hi.2.2.2
      rw [snake_walk_eval b s q lunch hN hlen h2 hrep hsd hqx hqy]
      split_ifs <;> simp
  · rw [(dead_walk b k s lunch hN hlen hdead hring).1]
    simp

/-- Witness for C10: one `walk` call on a freshly constructed 6×6 board. -/
theorem C10_witness : walk (mkBoard 6 1 ⟨1, 1⟩) ⟨2, 2⟩ ≠ none :=
  C10_no_panic (mkBoard 6 1 ⟨1, 1⟩)
    (ReachFull.init 1 ⟨1, 1⟩ (by norm_num) (by norm_num) (by decide) (by decide)) ⟨2, 2⟩

/-- C6 (amended): `new` fails with the size error exactly when
`size < length + 2`.  When `size ≥ length + 2` and `length ≤ 127`, provided
`(length, size)` is not one of the two degenerate pairs `(0, 2)` and `(1, 3)`
(whose grids have no empty interior cell, so the rejection-sampling loop of
`find_lunch_point` never terminates), a valid food point exists and
construction succeeds with the `length` positive cells forming a contiguous
head-to-tail path (a `SnakeRep` list). -/
theorem C6_construction (N L : Nat) (lunch : Point) :
    (N < L + 2 →
      new N L lunch = .error
        ("the table size must be grater than of start snake length + 2: "
          ++ toString ((L + 2) % 256)))
    ∧ (L + 2 ≤ N → L ≤ 127 → ¬((L = 0 ∧ N = 2) ∨ (L = 1 ∧ N = 3)) →
        (∃ p : Point, LunchOk N (preFoodTable N L) p)
        ∧ (LunchOk N (preFoodTable N L) lunch →
            new N L lunch = .ok (mkBoard N L lunch)
            ∧ ∃ s : List Point, s.length = L ∧ SnakeRep (mkBoard N L lunch) s)) := by
  constructor
  · intro h
    unfold new
    rw [if_pos (by omega)]
  · intro hsz hL hbad
    constructor
    · rcases Nat.eq_zero_or_pos L with h0 | h1
      · subst h0
        have hN3 : 3 ≤ N := by
          rcases Nat.lt_or_ge N 3 with h | h
          · exfalso
            exact hbad (Or.inl ⟨rfl, by omega⟩)
          · exact h
        refine ⟨⟨1, 1⟩, ?_, ?_, ?_, ?_, ?_⟩
        · show 1 ≤ 1
          omega
        · show 1 ≤ N - 2
          omega
        · show 1 ≤ 1
          omega
        · show 1 ≤ N - 2
          omega
        · show preFoodTable N 0 1 1 = 0
          rw [preFoodTable_eval N 0 1 1 (by omega), if_neg (by omega)]
          unfold wallsT
          rw [if_neg (by omega)]
      · have hN4 : 4 ≤ N := by
          rcases Nat.lt_or_ge N 4 with h | h
          · exfalso
            exact hbad (Or.inr ⟨by omega, by omega⟩)
          · exact h
        by_cases hhalf : (N - 1) / 2 = 1
        · refine ⟨⟨2, 1⟩, ?_, ?_, ?_, ?_, ?_⟩
          · show 1 ≤ 2
            omega
          · show 2 ≤ N - 2
            omega
          · show 1 ≤ 1
            omega
          · show 1 ≤ N - 2
            omega
          · show preFoodTable N L 2 1 = 0
            rw [preFoodTable_eval N L 2 1 hsz, if_neg (by omega)]
            unfold wallsT
            rw [if_neg (by omega)]
        · refine ⟨⟨1, 1⟩, ?_, ?_, ?_, ?_, ?_⟩
          · show 1 ≤ 1
            omega
          · show 1 ≤ N - 2
            omega
          · show 1 ≤ 1
            omega
          · show 1 ≤ N - 2
            omega
          · show preFoodTable N L 1 1 = 0
            rw [preFoodTable_eval N L 1 1 hsz, if_neg (by omega)]
            unfold wallsT
            rw [if_neg (by omega)]
    · intro hlunch
      have hN3 : 3 ≤ N := by
        obtain ⟨h1, h2, -⟩ := hlunch
        omega
      exact ⟨new_ok N L lunch hsz, initSnake N L, initSnake_length N L,
        init_rep N L lunch hN3 hL hsz hlunch⟩

/-- Witness for C6: `new(5)` on a 4×4 grid hits the error side; `new(3)` on a
10×10 grid hits the success side with `(1,1)` as a valid food point. -/
theorem C6_witness :
    new 4 5 ⟨1, 1⟩ = .error
        ("the table size must be grater than of start snake length + 2: "
          ++ toString ((5 + 2) % 256))
    ∧ (∃ p : Point, LunchOk 10 (preFoodTable 10 3) p)
    ∧ new 10 3 ⟨1, 1⟩ = .ok (mkBoard 10 3 ⟨1, 1⟩)
    ∧ ∃ s : List Point, s.length = 3 ∧ SnakeRep (mkBoard 10 3 ⟨1, 1⟩) s := by
  have h1 := (C6_construction 4 5 ⟨1, 1⟩).1 (by norm_num)
  have h2 := (C6_construction 10 3 ⟨1, 1⟩).2 (by norm_num) (by norm_num) (by decide)
  exact ⟨h1, h2.1, (h2.2 (by decide)).1, (h2.2 (by decide)).2⟩

/-- A tick from a state whose snake has at most one segment never eats: the
scan detects no head, so the probed cell is the wall at the default
`head_point = (0,0)`. -/
theorem walkEats_short {N : Nat} (b : Board N) (s : List Point) (hN : 3 ≤ N)
    (hlen : b.length ≤ 127) (h1 : b.length ≤ 1) (hrep : SnakeRep b s)
    (hzero : b.game_table 0 0 = -1) : walkEats b = false := by
  have hb := snake_bound hrep
  have hH := snake_headSpec1 hrep h1
  have hval : scanTable N b.length b.game_table 0 0 = -1 :=
    (scanTable_eq_neg_iff N b.length b.game_table hlen hb 0 0 (-1) (by omega)).mpr hzero
  have hne : ¬(0 < N ∧ 0 < N ∧ scanTable N b.length b.game_table 0 0 = -2) := by
    intro hc
    rw [hval] at hc
    exact absurd hc.2.2 (by norm_num)
  rcases Nat.lt_or_ge b.length 1 with h0 | h0
  · have hscan := walkScan_no_head b none hN hlen hb (snake_tailSpec0 hrep (by omega)) hH
    unfold walkEats
    rw [hscan]
    dsimp only
    rw [if_neg hne]
  · have hscan := walkScan_no_head b (some (s.getD (b.length - 1) ⟨0, 0⟩)) hN hlen hb
      (snake_tailSpec hrep hlen h0) hH
    rw [Option.getD_some] at hscan
    unfold walkEats
    rw [hscan]
    dsimp only
    rw [if_neg hne]

/-- C5 (amended): on a reachable state with `length ≤ 126` (so the `u8`/`i8`
increments are exact), a tick whose target holds food, with a valid
`find_lunch_point` answer, returns `true`, increments `length` and `score`
by 1, restores the vacated tail cell with the new length value, and leaves
exactly one food cell: at the oracle point — an interior cell that was empty
before the tick, hence different from the consumed food cell. -/
theorem C5_growth {N : Nat} (b : Board N) (lunch : Point)
    (hreach : ReachableCapped N b) (h126 : b.length ≤ 126)
    (heats : walkEats b = true) (hl : LunchCond b lunch) :
    ∃ b' : Board N, walk b lunch = some (true, b')
      ∧ b'.length = b.length + 1
      ∧ b'.score = b.score + 1
      ∧ b'.game_table lunch.x lunch.y = -2
      ∧ (∀ a, a < N → ∀ y, y < N → b'.game_table a y = -2 → a = lunch.x ∧ y = lunch.y)
      ∧ 1 ≤ lunch.x ∧ lunch.x ≤ N - 2 ∧ 1 ≤ lunch.y ∧ lunch.y ≤ N - 2
      ∧ b.game_table lunch.x lunch.y = 0
      ∧ (∃ tl : Point, b.game_table tl.x tl.y = (b.length : Int)
          ∧ b'.game_table tl.x tl.y = (b.length : Int) + 1) := by
  obtain ⟨hN, hlen, hzero, s, hrep, hfood⟩ := reachCapped_inv b hreach
  rcases Nat.lt_or_ge b.length 2 with h1 | h2
  · exfalso
    rw [walkEats_short b s hN hlen (by omega) hrep hzero] at heats
    exact absurd heats (by simp)
  · cases hsd : stepDir b.direction (s.getD 0 ⟨0, 0⟩) with
    | none =>
      exfalso
      have hscan := walkScan_some_head_panic b (some (s.getD (b.length - 1) ⟨0, 0⟩))
        (s.getD 0 ⟨0, 0⟩) hN hlen (snake_bound hrep)
        (snake_tailSpec hrep hlen (by omega)) (snake_headSpec hrep h2) hsd
      unfold walkEats at heats
      rw [hscan] at heats
      exact absurd heats (by simp)
    | some q =>
      have hscan := walkScan_some_head b (some (s.getD (b.length - 1) ⟨0, 0⟩))
        (s.getD 0 ⟨0, 0⟩) q hN hlen (snake_bound hrep)
        (snake_tailSpec hrep hlen (by omega)) (snake_headSpec hrep h2) hsd
      rw [Option.getD_some] at hscan
      unfold walkEats at heats
      rw [hscan] at heats
      dsimp only at heats
      by_cases hcond : q.x < N ∧ q.y < N
          ∧ scanTable N b.length b.game_table q.x q.y = -2
      · obtain ⟨hqx, hqy, hfoodtgt⟩ := hcond
        have heval := snake_walk_eval b s q lunch hN hlen h2 hrep hsd hqx hqy
        rw [if_pos hfoodtgt] at heval
        have hlunchOk : LunchOk N
            (upd (upd (scanTable N b.length b.game_table)
              (s.getD (b.length - 1) ⟨0, 0⟩) (toI8 ((b.length + 1) % 256))) q 1)
            lunch := by
          have h := hl (by
            unfold walkEats
            rw [hscan]
            dsimp only
            rw [if_pos ⟨hqx, hqy, hfoodtgt⟩])
          rw [postGrowthTable_eq b _ _ q hscan] at h
          exact h
        obtain ⟨hlu1, hlu2, hlu3, hlu4, hlu5⟩ := hlunchOk
        have hlunchOk2 : LunchOk N
            (upd (upd (scanTable N b.length b.game_table)
              (s.getD (b.length - 1) ⟨0, 0⟩) (toI8 ((b.length + 1) % 256))) q 1)
            lunch := ⟨hlu1, hlu2, hlu3, hlu4, hlu5⟩
        have hmod : (b.length + 1) % 256 = b.length + 1 := Nat.mod_eq_of_lt (by omega)
        have hv8 : toI8 ((b.length + 1) % 256) = (b.length : Int) + 1 := by
          rw [hmod, toI8_of_le _ (by omega)]
          push_cast
          ring
        have hlq : ¬(lunch.x = q.x ∧ lunch.y = q.y) := by
          intro hc
          rw [hc.1, hc.2, upd_self] at hlu5
          exact absurd hlu5 (by norm_num)
        have hlu5' : upd (scanTable N b.length b.game_table)
            (s.getD (b.length - 1) ⟨0, 0⟩) (toI8 ((b.length + 1) % 256))
            lunch.x lunch.y = 0 := by
          rw [upd_of_ne _ _ _ _ _ hlq] at hlu5
          exact hlu5
        have hltl : ¬(lunch.x = (s.getD (b.length - 1) ⟨0, 0⟩).x
            ∧ lunch.y = (s.getD (b.length - 1) ⟨0, 0⟩).y) := by
          intro hc
          rw [hc.1, hc.2, upd_self, hv8] at hlu5'
          omega
        have hscanlunch : scanTable N b.length b.game_table lunch.x lunch.y = 0 := by
          rw [upd_of_ne _ _ _ _ _ hltl] at hlu5'
          exact hlu5'
        have hlux : lunch.x < N := by omega
        have hluy : lunch.y < N := by omega
        have hpre0 : b.game_table lunch.x lunch.y = 0 := by
          rcases snake_scan_target hrep hlen hlux hluy hscanlunch with h0 | ⟨hpos, hlenv⟩
          · exact h0
          · exfalso
            have hk : b.length - 1 < s.length := by
              obtain ⟨hls, -, -, -, -⟩ := hrep
              omega
            have := snake_value_at hrep hlux hluy hk (by rw [hlenv]; omega)
            exact hltl this
        have htlq : ¬((s.getD (b.length - 1) ⟨0, 0⟩).x = q.x
            ∧ (s.getD (b.length - 1) ⟨0, 0⟩).y = q.y) := by
          intro hc
          have h0' := snake_scan_tail hrep hlen (by omega)
          rw [hc.1, hc.2, hfoodtgt] at h0'
          exact absurd h0' (by norm_num)
        have hfood' := grow_food b s q lunch hN hlen h2 hrep hqx hqy hfoodtgt
          hlunchOk2 hfood
        obtain ⟨pF, hFx, hFy, hFv, -, -, -, -, hFu⟩ := hfood'
        have hlself : (growBoard b (s.getD (b.length - 1) ⟨0, 0⟩) q lunch).game_table
            lunch.x lunch.y = -2 := by
          show upd (upd (upd (scanTable N b.length b.game_table)
            (s.getD (b.length - 1) ⟨0, 0⟩) (toI8 ((b.length + 1) % 256))) q 1)
            lunch (-2) lunch.x lunch.y = -2
          rw [upd_self]
        have hlpF := hFu lunch.x hlux lunch.y hluy hlself
        refine ⟨growBoard b (s.getD (b.length - 1) ⟨0, 0⟩) q lunch, heval, ?_, rfl,
          hlself, ?_, hlu1, hlu2, hlu3, hlu4, hpre0,
          s.getD (b.length - 1) ⟨0, 0⟩, ?_, ?_⟩
        · show (b.length + 1) % 256 = b.length + 1
          exact hmod
        · intro a ha y hy hv
          have := hFu a ha y hy hv
          rw [this.1, this.2, hlpF.1, hlpF.2]
          exact ⟨rfl, rfl⟩
        · have hk : b.length - 1 < s.length := by
            obtain ⟨hls, -, -, -, -⟩ := hrep
            omega
          obtain ⟨-, hval, -, -, -⟩ := hrep
          have := hval (b.length - 1) hk
          rw [this]
          omega
        · show upd (upd (upd (scanTable N b.length b.game_table)
            (s.getD (b.length - 1) ⟨0, 0⟩) (toI8 ((b.length + 1) % 256))) q 1)
            lunch (-2) (s.getD (b.length - 1) ⟨0, 0⟩).x
            (s.getD (b.length - 1) ⟨0, 0⟩).y = (b.length : Int) + 1
          rw [upd_of_ne _ _ _ _ _ (fun hc => hltl ⟨hc.1.symm, hc.2.symm⟩),
            upd_of_ne _ _ _ _ _ htlq, upd_self, hv8]
      · rw [if_neg hcond] at heats
        exact absurd heats (by simp)

/-- Witness for C5: the growth tick on a 7×7 board with the length-3 snake
facing the food at `(3,5)`, the oracle placing the next food at `(1,1)`. -/
theorem C5_growth_witness :
    ∃ b' : Board 7, walk (mkBoard 7 3 ⟨3, 5⟩) ⟨1, 1⟩ = some (true, b')
      ∧ b'.length = (mkBoard 7 3 ⟨3, 5⟩).length + 1
      ∧ b'.score = (mkBoard 7 3 ⟨3, 5⟩).score + 1
      ∧ b'.game_table (⟨1, 1⟩ : Point).x (⟨1, 1⟩ : Point).y = -2
      ∧ (∀ a, a < 7 → ∀ y, y < 7 → b'.game_table a y = -2 →
          a = (⟨1, 1⟩ : Point).x ∧ y = (⟨1, 1⟩ : Point).y)
      ∧ 1 ≤ (⟨1, 1⟩ : Point).x ∧ (⟨1, 1⟩ : Point).x ≤ 7 - 2
      ∧ 1 ≤ (⟨1, 1⟩ : Point).y ∧ (⟨1, 1⟩ : Point).y ≤ 7 - 2
      ∧ (mkBoard 7 3 ⟨3, 5⟩).game_table (⟨1, 1⟩ : Point).x (⟨1, 1⟩ : Point).y = 0
      ∧ (∃ tl : Point,
          (mkBoard 7 3 ⟨3, 5⟩).game_table tl.x tl.y
            = ((mkBoard 7 3 ⟨3, 5⟩).length : Int)
          ∧ b'.game_table tl.x tl.y = ((mkBoard 7 3 ⟨3, 5⟩).length : Int) + 1) :=
  C5_growth (mkBoard 7 3 ⟨3, 5⟩) ⟨1, 1⟩
    (ReachableCapped.init 3 ⟨3, 5⟩ (by norm_num) (by norm_num) (by decide))
    (by decide) (by decide) (by decide)

/-- Counterexample for C5: a growth tick at `length = 127` (reachable with
all ticks capped at 127, since the cap applies to the pre-tick states). The
129×129 board with the length-127 snake turned `Up` onto the food eats:
`length` becomes 128, but the vacated tail cell `(64,1)` — which held 127 —
is rewritten with `(127 + 1) as i8 = -128`, not with the new length value
128. -/
theorem C5_counterexample :
    ReachableCapped 129 (rotation (mkBoard 129 127 ⟨63, 127⟩) Direction.Up)
    ∧ (rotation (mkBoard 129 127 ⟨63, 127⟩) Direction.Up).length = 127
    ∧ (rotation (mkBoard 129 127 ⟨63, 127⟩) Direction.Up).game_table 64 1 = 127
    ∧ ∃ b' : Board 129,
        walk (rotation (mkBoard 129 127 ⟨63, 127⟩) Direction.Up) ⟨1, 1⟩
          = some (true, b')
        ∧ b'.length = 128
        ∧ b'.game_table 64 1 = -128 := by
  have hrep : SnakeRep (rotation (mkBoard 129 127 ⟨63, 127⟩) Direction.Up)
      (initSnake 129 127) :=
    init_rep 129 127 ⟨63, 127⟩ (by norm_num) (by norm_num) (by norm_num) (by decide)
  have hlen127 : (rotation (mkBoard 129 127 ⟨63, 127⟩) Direction.Up).length ≤ 127 := by
    decide
  have hgd : (initSnake 129 127).getD 0 ⟨0, 0⟩ = ⟨64, 127⟩ := by
    rw [initSnake_getD 129 127 0 (by norm_num)]
    decide
  have hsd : stepDir (rotation (mkBoard 129 127 ⟨63, 127⟩) Direction.Up).direction
      ((initSnake 129 127).getD 0 ⟨0, 0⟩) = some ⟨63, 127⟩ := by
    rw [hgd]
    decide
  have hfood63 : (rotation (mkBoard 129 127 ⟨63, 127⟩) Direction.Up).game_table
      (⟨63, 127⟩ : Point).x (⟨63, 127⟩ : Point).y = -2 := by
    show upd (preFoodTable 129 127) ⟨63, 127⟩ (-2)
      (⟨63, 127⟩ : Point).x (⟨63, 127⟩ : Point).y = -2
    exact upd_self _ _ _
  have htgt : scanTable 129 (rotation (mkBoard 129 127 ⟨63, 127⟩) Direction.Up).length
      (rotation (mkBoard 129 127 ⟨63, 127⟩) Direction.Up).game_table
      (⟨63, 127⟩ : Point).x (⟨63, 127⟩ : Point).y = -2 :=
    (scanTable_eq_neg_iff 129 _ _ hlen127 (snake_bound hrep)
      (⟨63, 127⟩ : Point).x (⟨63, 127⟩ : Point).y (-2) (by norm_num)).mpr hfood63
  have heval := snake_walk_eval (rotation (mkBoard 129 127 ⟨63, 127⟩) Direction.Up)
    (initSnake 129 127) ⟨63, 127⟩ ⟨1, 1⟩ (by norm_num) hlen127 (by decide) hrep hsd
    (by decide) (by decide)
  rw [if_pos htgt] at heval
  have hgd2 : (initSnake 129 127).getD
      ((rotation (mkBoard 129 127 ⟨63, 127⟩) Direction.Up).length - 1) ⟨0, 0⟩
      = ⟨64, 1⟩ := by
    show (initSnake 129 127).getD 126 ⟨0, 0⟩ = ⟨64, 1⟩
    rw [initSnake_getD 129 127 126 (by norm_num)]
    decide
  rw [hgd2] at heval
  refine ⟨ReachableCapped.rot _ Direction.Up
      (ReachableCapped.init 127 ⟨63, 127⟩ (by norm_num) (by norm_num) (by decide)),
    rfl, by decide, ?_⟩
  refine ⟨growBoard (rotation (mkBoard 129 127 ⟨63, 127⟩) Direction.Up)
      ⟨64, 1⟩ ⟨63, 127⟩ ⟨1, 1⟩, heval, rfl, ?_⟩
  show upd (upd (upd (scanTable 129
      (rotation (mkBoard 129 127 ⟨63, 127⟩) Direction.Up).length
      (rotation (mkBoard 129 127 ⟨63, 127⟩) Direction.Up).game_table)
      ⟨64, 1⟩ (toI8 (((rotation (mkBoard 129 127 ⟨63, 127⟩) Direction.Up).length + 1)
        % 256))) ⟨63, 127⟩ 1) ⟨1, 1⟩ (-2) 64 1 = -128
  rw [upd_of_ne _ _ _ _ _ (by decide), upd_of_ne _ _ _ _ _ (by decide), upd_self']
  decide

end Snake
